import Mathlib

/-!
Verification development for the finance-chat backend (ai-chatbot).

The SQL text pipeline, the query executor, the ticker resolver, the
portfolio fetcher and the evidence orchestration of the per-turn agent
pipeline are shallowly embedded here.  Strings of the TypeScript source
are modelled as `List Char`; JavaScript `toUpperCase` is modelled by the
ASCII case map `Char.toUpper` (the denylists and keyword sets are ASCII).
Asynchronous tasks are modelled as `Except` values and `Promise.all` as
the all-or-nothing join on `Except`.
-/

set_option maxHeartbeats 1000000

namespace FinanceChat

/-- Single-quote character, written by code point to keep literals readable. -/
def squote : Char := Char.ofNat 39

/-- Double-quote character. -/
def dquote : Char := Char.ofNat 34

/-- Percent character (SQL LIKE wildcard delimiter). -/
def pctChar : Char := Char.ofNat 37

/-- Newline character (not matched by `.` in the JS regexes). -/
def nlChar : Char := Char.ofNat 10

/-- A JS regex word character: `[a-zA-Z0-9_]`. -/
def isWordChar (c : Char) : Bool := c.isAlpha || c.isDigit || c = '_'

/-- `hay.includes(needle)` on character lists. -/
def containsSub (needle : List Char) : List Char → Bool
  | [] => needle.isEmpty
  | c :: cs => needle.isPrefixOf (c :: cs) || containsSub needle cs

/-- Source: `isDangerousQuery` in helpers.  Each disjunct mirrors
`query.toUpperCase().includes(...)` for one denylisted verb. -/
def isDangerousQuery (query : List Char) : Bool :=
  containsSub "INSERT".toList (query.map Char.toUpper) ||
  containsSub "UPSERT".toList (query.map Char.toUpper) ||
  containsSub "DROP".toList (query.map Char.toUpper) ||
  containsSub "DELETE".toList (query.map Char.toUpper) ||
  containsSub "ALTER".toList (query.map Char.toUpper) ||
  containsSub "CREATE".toList (query.map Char.toUpper) ||
  containsSub "GRANT".toList (query.map Char.toUpper) ||
  containsSub "REVOKE".toList (query.map Char.toUpper) ||
  containsSub "REINDEX".toList (query.map Char.toUpper)

/-- The nine denylisted substrings, for the specification-side statement. -/
def dangerousKeywords : List (List Char) :=
  ["INSERT", "UPSERT", "DROP", "DELETE", "ALTER", "CREATE", "GRANT",
   "REVOKE", "REINDEX"].map String.toList

/-- Source: the `sqlKeywords` set of `enforceCaseSensitivity` in db.ts. -/
def sqlKeywords : List (List Char) :=
  ["SELECT", "FROM", "WHERE", "AND", "OR", "IN", "ORDER", "BY", "ASC",
   "DESC", "LIMIT", "TRUE", "FALSE", "NULL", "NOT", "LIKE", "ILIKE",
   "GROUP", "HAVING", "JOIN", "LEFT", "RIGHT", "INNER", "OUTER", "ON",
   "AS", "CASE", "WHEN", "THEN", "ELSE", "END", "INTERVAL", "DISTINCT",
   "BETWEEN", "EXISTS", "IS", "SET", "UPDATE", "DELETE", "INSERT",
   "VALUES", "CREATE", "ALTER", "DROP", "TABLE", "VIEW", "INDEX",
   "UNION", "EXCEPT", "INTERSECT", "ALL", "ANY", "SOME", "COALESCE",
   "GREATEST", "LEAST", "HAVING", "OFFSET", "FETCH", "WITH", "RECURSIVE",
   "WINDOW", "NULLS", "LAST", "CROSS"].map String.toList

/-- Source: the `functionNames` set of `enforceCaseSensitivity` in db.ts. -/
def functionNames : List (List Char) :=
  ["NOW", "CURRENT_TIMESTAMP", "CURRENT_DATE", "CURRENT_TIME",
   "DATE_PART", "DATE_TRUNC", "DATE", "COUNT", "SUM", "AVG", "MAX",
   "MIN", "ROUND", "CEIL", "FLOOR", "ABS", "LENGTH", "LOWER", "UPPER",
   "TRIM", "SUBSTRING", "POSITION", "REPLACE", "CHAR_LENGTH",
   "EXTRACT"].map String.toList

/-- `sqlKeywords.has(match.toUpperCase()) || functionNames.has(match.toUpperCase())`. -/
def isKeywordOrFunctionName (run : List Char) : Bool :=
  sqlKeywords.contains (run.map Char.toUpper) ||
  functionNames.contains (run.map Char.toUpper)

/-- First character class of the identifier regex: `[a-zA-Z_]`. -/
def isIdentStart (c : Char) : Bool := c.isAlpha || c = '_'

/-- The replacement callback of the identifier regex applied to one maximal
word-character run: runs that do not start with `[a-zA-Z_]` are not matched
by `\b([a-zA-Z_][a-zA-Z0-9_]*)\b` at all, keywords and function names are
kept, everything else is wrapped in double quotes. -/
def quoteRun (run : List Char) : List Char :=
  if isIdentStart (run.headD ' ') then
    if isKeywordOrFunctionName run then run else dquote :: run ++ [dquote]
  else run

/-- Stage 1 of `enforceCaseSensitivity`:
`replaceAll(/\b([a-zA-Z_][a-zA-Z0-9_]*)\b/g, ...)`.  The scanner walks the
string; each maximal run of word characters is one candidate match. -/
def quoteBareIdentifiers : List Char → List Char
  | [] => []
  | c :: cs =>
    if isWordChar c then
      quoteRun ((c :: cs).takeWhile isWordChar) ++
        quoteBareIdentifiers ((c :: cs).dropWhile isWordChar)
    else c :: quoteBareIdentifiers cs
termination_by l => l.length
decreasing_by
  all_goals simp_wf
  all_goals try (simp [List.dropWhile_cons, *]; omega)
  all_goals
    (have h := (List.dropWhile_sublist (l := cs) isWordChar).length_le
     simp [List.dropWhile_cons, *]
     omega)

/-- `replaceAll` of the two-character pattern `[a, b]` by `r`, scanning
left-to-right without rescanning replacements (JS `String.replaceAll` with
a string pattern). -/
def replacePairAll (a b : Char) (r : List Char) : List Char → List Char
  | [] => []
  | [c] => [c]
  | c :: d :: cs =>
    if c = a ∧ d = b then r ++ replacePairAll a b r cs
    else c :: replacePairAll a b r (d :: cs)
termination_by l => l.length
decreasing_by
  all_goals simp_wf
  all_goals try simp
  all_goals omega

/-- Stage 5 of `enforceCaseSensitivity`:
`replaceAll(/%(.+?)%/g, m => m.replaceAll(dquote, ""))`.  A match starts at
a `%`, lazily consumes at least one non-newline character, and closes at
the next `%`; all double quotes inside the match are removed.  A failed
attempt advances the scan by one character. -/
def unquoteWildcards : List Char → List Char
  | [] => []
  | c :: cs =>
    if c = pctChar then
      match cs with
      | [] => [c]
      | c1 :: cs1 =>
        if c1 = nlChar then c :: unquoteWildcards (c1 :: cs1)
        else
          if ((c1 :: cs1).tail.dropWhile (fun x => x ≠ pctChar)).isEmpty ∨
              ((c1 :: cs1).tail.takeWhile (fun x => x ≠ pctChar)).any (fun x => x = nlChar) then
            c :: unquoteWildcards (c1 :: cs1)
          else
            (pctChar :: c1 :: (c1 :: cs1).tail.takeWhile (fun x => x ≠ pctChar)
                ++ [pctChar]).filter (fun x => x ≠ dquote) ++
              unquoteWildcards (((c1 :: cs1).tail.dropWhile (fun x => x ≠ pctChar)).tail)
    else c :: unquoteWildcards cs
termination_by l => l.length
decreasing_by
  all_goals simp_wf
  all_goals try omega
  all_goals
    (have h := (List.dropWhile_sublist (l := cs) (fun x => !decide (x = pctChar))).length_le
     omega)

/-- Stage 6 of `enforceCaseSensitivity`:
`replace(/'([^']+)'/g, m => m.replaceAll(dquote, ""))` (global flag, so a
full `replaceAll`).  A match runs from a single quote over at least one
non-quote character to the next single quote; all double quotes inside the
match are removed. -/
def unquoteLiterals : List Char → List Char
  | [] => []
  | c :: cs =>
    if c = squote then
      if (cs.dropWhile (fun x => x ≠ squote)).isEmpty ∨
          (cs.takeWhile (fun x => x ≠ squote)).isEmpty then
        c :: unquoteLiterals cs
      else
        (squote :: cs.takeWhile (fun x => x ≠ squote) ++ [squote]).filter (fun x => x ≠ dquote) ++
          unquoteLiterals ((cs.dropWhile (fun x => x ≠ squote)).tail)
    else c :: unquoteLiterals cs
termination_by l => l.length
decreasing_by
  all_goals simp_wf
  all_goals try omega
  all_goals
    (have h := (List.dropWhile_sublist (l := cs) (fun x => !decide (x = squote))).length_le
     try simp only [List.length_cons]
     omega)

/-- Source: `enforceCaseSensitivity` in db.ts — quote bare identifiers,
collapse the quote-adjacency artifacts `squote dquote`, `dquote squote`
and `dquote dquote`, then strip double quotes inside `%...%` wildcard
spans and inside remaining single-quoted literals, in this order. -/
def enforceCaseSensitivity (query : List Char) : List Char :=
  unquoteLiterals (unquoteWildcards (replacePairAll dquote dquote [dquote]
    (replacePairAll dquote squote [squote] (replacePairAll squote dquote [squote]
      (quoteBareIdentifiers query)))))

/-- Whether the two-character sequence `[a, b]` occurs in the list. -/
def hasPair (a b : Char) : List Char → Bool
  | [] => false
  | [_] => false
  | c :: d :: cs => (decide (c = a) && decide (d = b)) || hasPair a b (d :: cs)

/-- Token grammar of well-formed quoter input for the idempotence claim:
keyword/function tokens, already-double-quoted identifiers, and separator
characters. -/
inductive SqlToken where
  | kw : List Char → SqlToken
  | quoted : List Char → SqlToken
  | sep : Char → SqlToken
deriving DecidableEq

/-- The characters a token contributes to the SQL text. -/
def tokenChars : SqlToken → List Char
  | .kw w => w
  | .quoted w => dquote :: w ++ [dquote]
  | .sep c => [c]

/-- The SQL text of a token list. -/
def tokensChars (ts : List SqlToken) : List Char := (ts.map tokenChars).flatten

/-- Token sanity: a keyword/function token is a nonempty word-character
run in the fixed sets; a quoted identifier has nonempty word-character
content; a separator is a non-word character that is not a quote and not
a percent sign. -/
def tokenOk : SqlToken → Bool
  | .kw w => !w.isEmpty && w.all isWordChar && isKeywordOrFunctionName w
  | .quoted w => !w.isEmpty && w.all isWordChar
  | .sep c => !isWordChar c && !(c = dquote) && !(c = squote) && !(c = pctChar)

/-- Adjacent word-run tokens would merge into one identifier run, and
adjacent quoted identifiers would create a doubled-quote junction, so a
well-formed token list separates same-class tokens. -/
def okAdjPair : SqlToken → SqlToken → Bool
  | .kw _, .kw _ => false
  | .quoted _, .quoted _ => false
  | _, _ => true

/-- The adjacency condition over a whole token list. -/
def okAdj : List SqlToken → Bool
  | [] => true
  | [_] => true
  | t :: u :: ts => okAdjPair t u && okAdj (u :: ts)

/-- Image of one token under the bare-identifier quoting stage. -/
def qbiSeg : SqlToken → List Char
  | .kw w => quoteRun w
  | .quoted w => dquote :: quoteRun w ++ [dquote]
  | .sep c => [c]

/-- Image of a token list under the bare-identifier quoting stage. -/
def qbiSegs (ts : List SqlToken) : List Char := (ts.map qbiSeg).flatten

/-- Claim C7 counterexample input: `SELECT '','select this'` — a valid
SQL expression list with an empty literal followed by a literal holding a
keyword-like and an identifier-like token. -/
def cexInput : List Char :=
  "SELECT ".toList ++ squote :: squote :: ',' :: squote :: "select this".toList
    ++ [squote]

/-- The quoter's output on `cexInput`: the inserted double quote before
`this` survives inside the literal. -/
def cexOutput : List Char :=
  "SELECT ".toList ++ squote :: squote :: ',' :: squote :: "select ".toList ++
    dquote :: "this".toList ++ [squote]

/-- Well-formed witness input for the idempotence claim:
`SELECT "name", "tbl" FROM "t123"`. -/
def wfEx : List SqlToken :=
  [SqlToken.kw "SELECT".toList, SqlToken.sep ' ',
   SqlToken.quoted "name".toList, SqlToken.sep ',', SqlToken.sep ' ',
   SqlToken.quoted "tbl".toList, SqlToken.sep ' ',
   SqlToken.kw "FROM".toList, SqlToken.sep ' ',
   SqlToken.quoted "t123".toList]

/-! ## QueryExecutor — `generateComparisonDataSqlQueriesResponse` (sql-request.ts)

The per-query SQL value is `any` in the source; it is modelled by
`SqlField`: `null`/`undefined`, a string, or a truthy/falsy non-string
value.  The database connection is an oracle mapping the enforced query
text to either rows or a thrown error message. -/

/-- The `sqlQuery: any` field of a candidate query. -/
inductive SqlField where
  | nullv : SqlField
  | str : List Char → SqlField
  | other : Bool → SqlField
deriving DecidableEq

/-- JavaScript falsiness of the field (`!query.sqlQuery`): null/undefined,
the empty string and falsy non-strings. -/
def SqlField.isFalsy : SqlField → Bool
  | .nullv => true
  | .str s => s.isEmpty
  | .other t => !t

/-- `query.sqlQuery.toUpperCase()` on a non-string throws this TypeError. -/
def typeErrorUpper : List Char :=
  "TypeError: query.sqlQuery.toUpperCase is not a function".toList

/-- `isDangerousQuery(query.sqlQuery)` as evaluated by the JS runtime:
on a non-string receiver, `.toUpperCase()` throws. -/
def jsIsDangerousQuery : SqlField → Except (List Char) Bool
  | .str s => .ok (isDangerousQuery s)
  | _ => .error typeErrorUpper

/-- One entry of the `allQueries` array built by the route. -/
structure CandidateQuery where
  sqlQuery : SqlField
  reasoning : List Char
  stepName : List Char
deriving DecidableEq

/-- One element of a query's result sequence.  `strRow` is the string
sentinel of `dbQueryWithLog` (`typeof results[0] === "object"` is false
exactly for it); the others are JS objects. -/
inductive Row where
  | reasoningRow : List Char → Row
  | dataRow : List Char → Row
  | strRow : List Char → Row
  | errorRow : List Char → List Char → Row
deriving DecidableEq

/-- `typeof row === "object"`. -/
def Row.isObjectRow : Row → Bool
  | .strRow _ => false
  | _ => true

/-- A `stepFinish` state message written to the response stream. -/
structure StepStatus where
  stepName : List Char
  success : Bool
  text : List Char
deriving DecidableEq

/-- The zero-rows sentinel string of `dbQueryWithLog` in db.ts. -/
def noResultsMsg : List Char :=
  ("Above query successful but no results were returned, probably " ++
   "because there are no results that match the criteria").toList

/-- Source: `dbQueryWithLog` in db.ts — enforce case sensitivity, run the
query on the connection, replace an empty row set by the string sentinel,
and rethrow any execution error (the `finally` release is not modelled). -/
def dbQueryWithLog (client : List Char → Except (List Char) (List Row))
    (text : List Char) : Except (List Char) (List Row) :=
  match client (enforceCaseSensitivity text) with
  | .ok rows => .ok (if rows.isEmpty then [Row.strRow noResultsMsg] else rows)
  | .error e => .error e

/-- `success` of the final `stepFinish` write of one query:
`results.length > 0 && typeof results[0] === "object"`. -/
def stepFinishSuccess (results : List Row) : Bool :=
  !results.isEmpty && (results.head?.elim false Row.isObjectRow)

/-- `text` of the final `stepFinish` write of one query. -/
def stepFinishText (results : List Row) : List Char :=
  match results.head? with
  | none => "No data found".toList
  | some (Row.strRow s) => s
  | some _ => ("Data retrieved - " ++ toString results.length ++ " results").toList

/-- The body of the `allQueries.map(async (query) => ...)` callback in
`generateComparisonDataSqlQueriesResponse`.  The result carries the rows
contributed by the query, the `stepFinish` statuses written to the writer,
and the list of SQL texts handed to `dbQueryWithLog` (the database-call
log).  A thrown exception is an `Except.error`.  The final `| .nullv`/
`| .other` arm of the executed branch is unreachable (those shapes are
caught by the two guards) and present only for totality. -/
def runQuery (client : List Char → Except (List Char) (List Row))
    (hasWriter : Bool) (q : CandidateQuery) :
    Except (List Char) (List Row × List StepStatus × List (List Char)) :=
  if q.sqlQuery.isFalsy then
    .ok ([], (if hasWriter then [⟨q.stepName, false, "No query to execute".toList⟩] else []), [])
  else if (match q.sqlQuery with | .str s => isDangerousQuery s | _ => true) then
    if hasWriter then
      match jsIsDangerousQuery q.sqlQuery with
      | .error e => .error e
      | .ok b =>
        .ok ([], [⟨q.stepName, false,
          (if b then "Query is not safe to execute" else "No query to execute").toList⟩], [])
    else .ok ([], [], [])
  else
    match q.sqlQuery with
    | .str s =>
      match dbQueryWithLog client s with
      | .ok results =>
        .ok (Row.reasoningRow q.reasoning :: results,
             (if hasWriter then [⟨q.stepName, stepFinishSuccess results, stepFinishText results⟩]
              else []),
             [s])
      | .error e =>
        .ok (Row.reasoningRow q.reasoning :: [Row.errorRow q.reasoning e],
             (if hasWriter then
                [⟨q.stepName, false, e⟩,
                 ⟨q.stepName, stepFinishSuccess [Row.errorRow q.reasoning e],
                  stepFinishText [Row.errorRow q.reasoning e]⟩]
              else []),
             [s])
    | .nullv => .ok ([], [], [])
    | .other _ => .ok ([], [], [])

/-- `Promise.all` over already-settled tasks: all-or-nothing — any
rejection rejects the join and discards every fulfilled sibling. -/
def promiseAll {ε α : Type} : List (Except ε α) → Except ε (List α)
  | [] => .ok []
  | .error e :: _ => .error e
  | .ok a :: rest => (promiseAll rest).map (fun l => a :: l)

/-- Source: `generateComparisonDataSqlQueriesResponse` in sql-request.ts —
run every candidate query through the guarded executor in parallel
(`Promise.all`) and flatten the per-query row lists in dispatch order. -/
def generateComparisonDataSqlQueriesResponse
    (client : List Char → Except (List Char) (List Row)) (hasWriter : Bool)
    (allQueries : List CandidateQuery) :
    Except (List Char) (List Row × List StepStatus × List (List Char)) :=
  match promiseAll (allQueries.map (runQuery client hasWriter)) with
  | .error e => .error e
  | .ok parts =>
    .ok ((parts.map (fun p => p.1)).flatten,
         ((parts.map (fun p => p.2.1)).flatten,
          (parts.map (fun p => p.2.2)).flatten))

/-! ## Classification (schema.ts) and the route orchestration (route.ts) -/

/-- Output schema of the classification agent (`classificationAgentSchema`). -/
structure Classification where
  reasoning : List Char
  reasoningInSimpleLanguageAddressedAtUser : List Char
  isAboutUserPortfolio : Bool
  isAboutStockFundamentals : Bool
  isStockIndustryRelevant : Bool
  isAboutETFs : Bool
  isAboutCurrenciesOrCommoditiesOrIndices : Bool
  isAboutCrypto : Bool
  isAboutNews : Bool
  isAboutEarningsDates : Bool
  isAboutDividendDates : Bool
  isAboutInvestors : Bool
  isAboutSmartPortfolios : Bool
  isAboutAssetPricesOrPerformance : Bool
  userWantsToTradeAnAsset : Bool
  possibleAssetNamesOrTickers : List (List Char)
  isAboutEarningsCallsSummariesOrRevenueSegmentation : Bool
  isAboutCorporateGuidanceOrStrategicOutlook : Bool
  isAboutImportantCEOs : Bool
  previousRelevantTickers : List (List Char)
deriving DecidableEq

/-- The dispatch condition of the Google-search-grounded agent in
`agentTaskPipeline` (route.ts). -/
def googleSearchCondition (c : Classification) : Bool :=
  c.isAboutEarningsCallsSummariesOrRevenueSegmentation || c.isAboutImportantCEOs ||
  c.isAboutNews || c.isAboutEarningsDates || c.isAboutCorporateGuidanceOrStrategicOutlook ||
  ((c.isAboutCrypto || c.isAboutCurrenciesOrCommoditiesOrIndices) &&
    !c.isAboutUserPortfolio && !c.isAboutInvestors)

/-- Source: the `Promise.all([...])` of `agentTaskPipeline` (route.ts,
lines 265-320) joining the portfolio-analysis agent, the SQL agent, the
Google-search agent and the auxiliary-data agent.  A skipped branch is
`Promise.resolve(null)` (modelled by `Option.none`); the join is
all-or-nothing `Promise.all` semantics. -/
def gatherEvidenceTasks {α β γ δ : Type} (c : Classification)
    (portfolioTask : Except (List Char) α) (sqlTask : Except (List Char) β)
    (googleTask : Except (List Char) γ) (additionalTask : Except (List Char) δ) :
    Except (List Char) (Option α × β × Option γ × Option δ) :=
  match (if c.isAboutUserPortfolio then portfolioTask.map some else .ok none) with
  | .error e => .error e
  | .ok pa =>
    match sqlTask with
    | .error e => .error e
    | .ok qr =>
      match (if googleSearchCondition c then googleTask.map some else .ok none) with
      | .error e => .error e
      | .ok gs =>
        match (if c.isAboutAssetPricesOrPerformance then additionalTask.map some
               else .ok none) with
        | .error e => .error e
        | .ok ad => .ok (pa, qr, gs, ad)

/-- One ticker match produced by the ticker-extraction step. -/
structure TickerMatch where
  ticker : List Char
  name : List Char
  instrumentId : Nat
  assetType : Option (List Char)
deriving DecidableEq

/-- Source: the fallback in `agentTaskPipeline` (route.ts, lines 352-354):
`if (!comparisonData || comparisonData.length === 0) comparisonData =
[...comparisonData, ...mainTickerMatches]`.  The merged array is
heterogeneous in JS; it is modelled as a sum. -/
def routeComparisonData (comparisonData : List Row)
    (mainTickerMatches : List TickerMatch) : List (Row ⊕ TickerMatch) :=
  if comparisonData.isEmpty then
    comparisonData.map Sum.inl ++ mainTickerMatches.map Sum.inr
  else
    comparisonData.map Sum.inl

/-! ## TickerResolver — `generateTickersExtractionQueriesResponse` -/

/-- One row of `instruments_view` as selected by the catalog query. -/
structure Instrument where
  instrumentId : Nat
  name : List Char
  tickerEtoro : List Char
  assetClassId : Nat
deriving DecidableEq

/-- Source: `ASSET_TYPE_MAP` in helpers; `undefined` for unmapped ids. -/
def ASSET_TYPE_MAP : Nat → Option (List Char)
  | 1 => some "currency".toList
  | 2 => some "commodity".toList
  | 4 => some "index".toList
  | 5 => some "stock".toList
  | 6 => some "etf".toList
  | 10 => some "crypto".toList
  | _ => none

/-- The `relevantAssetTypes` array built from the classification flags in
`generateTickersExtractionQueriesResponse`, in push order. -/
def relevantAssetTypes (c : Classification) : List Nat :=
  (if c.isAboutStockFundamentals || c.isAboutNews || c.isAboutEarningsDates ||
      c.isAboutDividendDates then [5] else []) ++
  (if c.isAboutETFs || c.isAboutDividendDates then [6] else []) ++
  (if c.isAboutCurrenciesOrCommoditiesOrIndices then [1, 2, 4] else []) ++
  (if c.isAboutCrypto || c.isAboutNews then [10] else []) ++
  (if c.userWantsToTradeAnAsset || c.isAboutAssetPricesOrPerformance ||
      c.isAboutInvestors then [1, 2, 4, 5, 6, 10] else [])

/-- The parameters of the one catalog query the resolver may issue: the
asset-class filter and the full-text search terms (candidate names
concatenated with prior-turn tickers). -/
structure CatalogCall where
  assetTypes : List Nat
  searchTerms : List (List Char)
deriving DecidableEq

/-- Source: `generateTickersExtractionQueriesResponse` in sql-request.ts.
The supabase catalog (filter, text-search `or`, `limit(50)`) is an oracle
from the call parameters to `matchedInstruments` (`none` models a query
error, where `data` is null).  The second component is the list of
catalog lookups performed. -/
def generateTickersExtractionQueriesResponse
    (catalog : CatalogCall → Option (List Instrument)) (c : Classification) :
    List TickerMatch × List CatalogCall :=
  if c.possibleAssetNamesOrTickers.length = 0 ∧
     c.previousRelevantTickers.length = 0 ∧
     c.userWantsToTradeAnAsset = false then
    ([], [])
  else
    let call : CatalogCall :=
      ⟨relevantAssetTypes c, c.possibleAssetNamesOrTickers ++ c.previousRelevantTickers⟩
    match catalog call with
    | none => ([], [call])
    | some matchedInstruments =>
      (matchedInstruments.map (fun i =>
        ⟨i.tickerEtoro, i.name, i.instrumentId, ASSET_TYPE_MAP i.assetClassId⟩),
       [call])

/-! ## PortfolioFetcher — `getUserPortfolio` (helpers) -/

/-- One element of `data.positions` of the brokerage PortfolioSummary. -/
structure BrokeragePosition where
  instrumentId : Nat
  valuePctUnrealized : ℚ
deriving DecidableEq

/-- One element of `data.socialTrades`. -/
structure SocialTrade where
  parentUsername : List Char
  valuePctUnrealized : ℚ
deriving DecidableEq

/-- The parsed brokerage response; `positions` is `none` when the JSON has
no `positions` field (private or empty portfolio). -/
structure PortfolioSummary where
  positions : Option (List BrokeragePosition)
  socialTrades : List SocialTrade

/-- Outcomes of the four catalog enrichment queries (fundamentals,
instruments, popular investors, ETF fundamentals).  Their row contents do
not influence the weight/sort/cap pipeline, so each is abstracted to its
error status. -/
structure EnrichResults where
  fundamentals : Except (List Char) Unit
  instrumentsQ : Except (List Char) Unit
  popularInvestors : Except (List Char) Unit
  etfs : Except (List Char) Unit

/-- Whether an `Except` is an error. -/
def isErr {ε α : Type} : Except ε α → Bool
  | .error _ => true
  | .ok _ => false

/-- One element of `mergedPortfolioData`: a position-derived entry carries
its `instrumentId` (and no `parentUsername`), a social-trade-derived entry
carries its `parentUsername` (and no `instrumentId`). -/
structure MergedEntry where
  instrumentId : Option Nat
  parentUsername : Option (List Char)
deriving DecidableEq

/-- JS truthiness of `instrument.instrumentId` (0 and undefined are falsy). -/
def jsTruthyNat : Option Nat → Bool
  | none => false
  | some n => decide (n ≠ 0)

/-- The `portfolioWeight` assignment: look the entry up in `positions` by
`instrumentId` when that is truthy, otherwise in `socialTrades` by
`parentUsername`; `undefined` when no element matches. -/
def entryWeight (ps : List BrokeragePosition) (ts : List SocialTrade)
    (e : MergedEntry) : Option ℚ :=
  if jsTruthyNat e.instrumentId then
    (ps.find? (fun q => some q.instrumentId = e.instrumentId)).map
      (fun q => q.valuePctUnrealized)
  else
    (ts.find? (fun t => some t.parentUsername = e.parentUsername)).map
      (fun t => t.valuePctUnrealized)

/-- The comparator of `.sort((a, b) => (b.portfolioWeight || 0) -
(a.portfolioWeight || 0))` as a stable-sort `le` relation: `a` may stay
before `b` iff `(b.portfolioWeight || 0) ≤ (a.portfolioWeight || 0)`. -/
def weightDescLe (a b : MergedEntry × Option ℚ) : Bool :=
  decide (b.2.getD 0 ≤ a.2.getD 0)

/-- The early-return string for a private/empty portfolio. -/
def privateMsg : List Char :=
  "No portfolio data to analyze since portfolio is private or empty".toList

/-- `mergedPortfolioData` of `getUserPortfolio`: position entries (spread
with their enrichment rows) followed by social-trade entries. -/
def mergedPortfolioData (ps : List BrokeragePosition) (ts : List SocialTrade) :
    List MergedEntry :=
  ps.map (fun p => ⟨some p.instrumentId, none⟩) ++
  ts.map (fun t => ⟨none, some t.parentUsername⟩)

/-- The weight/filter stage of `finalResult`: attach `portfolioWeight` and
keep entries with `portfolioWeight > minPortfolioWeight` (false for an
undefined weight). -/
def portfolioFiltered (ps : List BrokeragePosition) (ts : List SocialTrade)
    (minPortfolioWeight : ℚ) : List (MergedEntry × Option ℚ) :=
  ((mergedPortfolioData ps ts).map (fun e => (e, entryWeight ps ts e))).filter
    (fun x =>
      match x.2 with
      | some w => decide (minPortfolioWeight < w)
      | none => false)

/-- `finalResult` of `getUserPortfolio`: filter, sort descending by
`portfolioWeight || 0`, and cap at `maxPositions`. -/
def portfolioFinal (ps : List BrokeragePosition) (ts : List SocialTrade)
    (minPortfolioWeight : ℚ) (maxPositions : Nat) :
    List (MergedEntry × Option ℚ) :=
  ((portfolioFiltered ps ts minPortfolioWeight).mergeSort weightDescLe).take
    maxPositions

/-- Source: `getUserPortfolio` in helpers.  Defaults in the source are
`minPortfolioWeight = 0.3` and `maxPositions = 50`.  The heterogeneous JS
return value (either an array of merged entry objects or a one-string
array) is modelled as a list of sums. -/
def getUserPortfolio (username : List Char) (resp : PortfolioSummary)
    (enrich : EnrichResults) (minPortfolioWeight : ℚ) (maxPositions : Nat) :
    List ((List Char) ⊕ (MergedEntry × Option ℚ)) :=
  if username.isEmpty then []
  else
    match resp.positions with
    | none => [Sum.inl privateMsg]
    | some ps =>
      if isErr enrich.fundamentals || isErr enrich.instrumentsQ ||
         isErr enrich.popularInvestors || isErr enrich.etfs then []
      else
        (portfolioFinal ps resp.socialTrades minPortfolioWeight maxPositions).map
          Sum.inr

/-! ## FinalSynthesizer return shape — `generateStreamFinalAgentResponse` -/

/-- A JS value as needed here: `undefined` or a readable stream handle. -/
inductive JsValue where
  | undef : JsValue
  | stream : Nat → JsValue
deriving DecidableEq

/-- Source: the return statement of `generateStreamFinalAgentResponse`
(agent-request.ts, line 632): an object literal with exactly the fields
`partialObjectStream` (the structured-generation stream) and
`finishPromise` set to `undefined`. -/
def generateStreamFinalAgentResponse (partialStreamId : Nat) :
    List ((List Char) × JsValue) :=
  [("partialObjectStream".toList, JsValue.stream partialStreamId),
   ("finishPromise".toList, JsValue.undef)]

/-- JS property access on an object: `undefined` for a missing key. -/
def getField (obj : List ((List Char) × JsValue)) (key : List Char) : JsValue :=
  ((obj.find? (fun kv => kv.1 = key)).map (fun kv => kv.2)).getD JsValue.undef

/-- `textStream.getReader()`: throws a TypeError when the receiver is
`undefined`. -/
def jsGetReader : JsValue → Except (List Char) Nat
  | .stream i => .ok i
  | .undef => .error "TypeError: Cannot read properties of undefined".toList

/-- The route's attempt (route.ts, lines 379-397) to destructure
`textStream` from the synthesizer's return value and obtain a reader. -/
def readFinalAgentStream (partialStreamId : Nat) : Except (List Char) Nat :=
  jsGetReader (getField (generateStreamFinalAgentResponse partialStreamId)
    "textStream".toList)

/-! ## Concrete fixtures used by witnesses and counterexamples -/

/-- A sample ticker match. -/
def tmEx : TickerMatch :=
  { ticker := "AAPL".toList, name := "Apple".toList, instrumentId := 1,
    assetType := some "stock".toList }

/-- A sample catalog row. -/
def instrEx : Instrument :=
  { instrumentId := 2, name := "Tesla".toList, tickerEtoro := "TSLA".toList,
    assetClassId := 5 }

/-- A classification with every topic flag raised except the three fields
of the resolver's short-circuit guard. -/
def cAllFlags : Classification :=
  { reasoning := [], reasoningInSimpleLanguageAddressedAtUser := [],
    isAboutUserPortfolio := true, isAboutStockFundamentals := true,
    isStockIndustryRelevant := true, isAboutETFs := true,
    isAboutCurrenciesOrCommoditiesOrIndices := true, isAboutCrypto := true,
    isAboutNews := true, isAboutEarningsDates := true,
    isAboutDividendDates := true, isAboutInvestors := true,
    isAboutSmartPortfolios := true, isAboutAssetPricesOrPerformance := true,
    userWantsToTradeAnAsset := false, possibleAssetNamesOrTickers := [],
    isAboutEarningsCallsSummariesOrRevenueSegmentation := true,
    isAboutCorporateGuidanceOrStrategicOutlook := true,
    isAboutImportantCEOs := true, previousRelevantTickers := [] }

/-- A classification that is only about news (so the Google-search agent
is dispatched and the portfolio and auxiliary-data agents are skipped). -/
def cNewsOnly : Classification :=
  { reasoning := [], reasoningInSimpleLanguageAddressedAtUser := [],
    isAboutUserPortfolio := false, isAboutStockFundamentals := false,
    isStockIndustryRelevant := false, isAboutETFs := false,
    isAboutCurrenciesOrCommoditiesOrIndices := false, isAboutCrypto := false,
    isAboutNews := true, isAboutEarningsDates := false,
    isAboutDividendDates := false, isAboutInvestors := false,
    isAboutSmartPortfolios := false, isAboutAssetPricesOrPerformance := false,
    userWantsToTradeAnAsset := false, possibleAssetNamesOrTickers := [],
    isAboutEarningsCallsSummariesOrRevenueSegmentation := false,
    isAboutCorporateGuidanceOrStrategicOutlook := false,
    isAboutImportantCEOs := false, previousRelevantTickers := [] }

/-- A candidate query whose `sqlQuery` is a truthy non-string value. -/
def qNonString : CandidateQuery :=
  { sqlQuery := SqlField.other true, reasoning := "why".toList,
    stepName := "Stock Fundamentals".toList }

/-- Weight of a portfolio result element under the sort comparator
(string sentinel elements count as weight 0, like `undefined || 0`). -/
def sumWeight : (List Char) ⊕ (MergedEntry × Option ℚ) → ℚ
  | .inl _ => 0
  | .inr p => p.2.getD 0

/-- Sample brokerage response: two positions and one copied trader. -/
def resp0 : PortfolioSummary :=
  { positions := some [⟨1, 5⟩, ⟨2, 1/10⟩], socialTrades := [⟨"bob".toList, 2⟩] }

/-- Sample brokerage response without a `positions` field. -/
def respNone : PortfolioSummary :=
  { positions := none, socialTrades := [] }

/-- All four enrichment queries succeeded. -/
def enrich0 : EnrichResults :=
  { fundamentals := .ok (), instrumentsQ := .ok (),
    popularInvestors := .ok (), etfs := .ok () }

/-- One enrichment query reported an error. -/
def enrichBad : EnrichResults :=
  { fundamentals := .ok (), instrumentsQ := .error "permission denied".toList,
    popularInvestors := .ok (), etfs := .ok () }

/-! ## Helper lemmas -/

theorem takeWhile_append_negHead (p : Char → Bool) (c : Char) (hc : p c = false)
    (xs ys : List Char) : (xs ++ c :: ys).takeWhile p = xs.takeWhile p := by
  induction xs with
  | nil => simp [List.takeWhile_cons, hc]
  | cons x xs ih => by_cases hx : p x <;> simp [List.takeWhile_cons, hx, ih]

theorem dropWhile_append_negHead (p : Char → Bool) (c : Char) (hc : p c = false)
    (xs ys : List Char) :
    (xs ++ c :: ys).dropWhile p = xs.dropWhile p ++ c :: ys := by
  induction xs with
  | nil => simp [List.dropWhile_cons, hc]
  | cons x xs ih => by_cases hx : p x <;> simp [List.dropWhile_cons, hx, ih]

theorem hasPair_cons_eq (a b c : Char) (l : List Char) :
    hasPair a b (c :: l) =
      ((l.head?.elim false (fun d => decide (c = a) && decide (d = b))) ||
        hasPair a b l) := by
  cases l with
  | nil => rfl
  | cons d l' => rfl

theorem hasPair_false_not_fst {a b : Char} {l : List Char} (h : a ∉ l) :
    hasPair a b l = false := by
  induction l with
  | nil => rfl
  | cons c cs ih =>
    rw [hasPair_cons_eq]
    have hca : decide (c = a) = false :=
      decide_eq_false (fun hh => h (by simp [hh]))
    have hrec : hasPair a b cs = false := ih (fun hm => h (by simp [hm]))
    cases cs with
    | nil => simp [hca, hrec]
    | cons d cs' => simp [hca, hrec]

theorem hasPair_false_not_snd {a b : Char} {l : List Char} (h : b ∉ l) :
    hasPair a b l = false := by
  induction l with
  | nil => rfl
  | cons c cs ih =>
    rw [hasPair_cons_eq]
    have hrec : hasPair a b cs = false := ih (fun hm => h (by simp [hm]))
    cases cs with
    | nil => simp [hrec]
    | cons d cs' =>
      have hdb : decide (d = b) = false :=
        decide_eq_false (fun hh => h (by simp [hh]))
      simp [hdb, hrec]

theorem getLast?_cons_of_getLast? {c x : Char} {l : List Char}
    (h : l.getLast? = some x) : (c :: l).getLast? = some x := by
  cases l with
  | nil => simp at h
  | cons d l' => rw [List.getLast?_cons_cons]; exact h

theorem hasPair_false_append {a b : Char} {xs ys : List Char}
    (hx : hasPair a b xs = false) (hy : hasPair a b ys = false)
    (hj : ∀ x y, xs.getLast? = some x → ys.head? = some y →
      (decide (x = a) && decide (y = b)) = false) :
    hasPair a b (xs ++ ys) = false := by
  induction xs with
  | nil => simpa using hy
  | cons c cs ih =>
    rw [List.cons_append, hasPair_cons_eq]
    rw [hasPair_cons_eq] at hx
    have hx2 : hasPair a b cs = false := by
      revert hx; cases (cs.head?.elim false
        (fun d => decide (c = a) && decide (d = b))) <;> simp
    have hrec : hasPair a b (cs ++ ys) = false := by
      refine ih hx2 ?_
      intro x y hxl hyh
      refine hj x y ?_ hyh
      exact getLast?_cons_of_getLast? hxl
    cases cs with
    | nil =>
      simp only [List.nil_append]
      cases ys with
      | nil => simpa using hy
      | cons y ys' =>
        have hcy := hj c y (by simp) (by simp)
        simp [hcy, hy]
    | cons d cs' =>
      simp only [List.head?_cons, Option.elim] at hx
      rw [Bool.or_eq_false_iff] at hx
      obtain ⟨hA, hB⟩ := hx
      rw [Bool.or_eq_false_iff]
      constructor
      · simp only [List.cons_append, List.head?_cons, Option.elim]
        exact hA
      · simpa using hrec

theorem hasPair_false_tail {a b : Char} {l : List Char}
    (h : hasPair a b l = false) : hasPair a b l.tail = false := by
  cases l with
  | nil => rfl
  | cons c cs =>
    rw [hasPair_cons_eq, Bool.or_eq_false_iff] at h
    exact h.2

theorem hasPair_false_dropLast {a b : Char} {l : List Char}
    (h : hasPair a b l = false) : hasPair a b l.dropLast = false := by
  induction l with
  | nil => rfl
  | cons c cs ih =>
    cases cs with
    | nil => rfl
    | cons d cs' =>
      rw [hasPair_cons_eq, Bool.or_eq_false_iff] at h
      obtain ⟨h1, h2⟩ := h
      rw [List.dropLast_cons₂, hasPair_cons_eq, Bool.or_eq_false_iff]
      refine ⟨?_, ih h2⟩
      cases cs' with
      | nil => simp
      | cons e es =>
        rw [List.dropLast_cons₂]
        simpa using h1

theorem replacePairAll_nil (a b : Char) (r : List Char) :
    replacePairAll a b r [] = [] := by
  simp [replacePairAll]

theorem replacePairAll_singleton (a b : Char) (r : List Char) (c : Char) :
    replacePairAll a b r [c] = [c] := by
  simp [replacePairAll]

theorem replacePairAll_cons₂_pos {a b c d : Char} (r cs : List Char)
    (hm : c = a ∧ d = b) :
    replacePairAll a b r (c :: d :: cs) = r ++ replacePairAll a b r cs := by
  rw [replacePairAll.eq_def]
  simp [hm.1, hm.2]

theorem replacePairAll_cons₂_neg {a b c d : Char} (r cs : List Char)
    (hm : ¬(c = a ∧ d = b)) :
    replacePairAll a b r (c :: d :: cs) =
      c :: replacePairAll a b r (d :: cs) := by
  rw [replacePairAll.eq_def]
  simp [hm]

theorem replacePairAll_eq_self (a b : Char) (r l : List Char)
    (h : hasPair a b l = false) : replacePairAll a b r l = l := by
  induction l using replacePairAll.induct a b r with
  | case1 => exact replacePairAll_nil a b r
  | case2 c => exact replacePairAll_singleton a b r c
  | case3 c d cs hm ih =>
    exfalso
    rw [hasPair_cons_eq] at h
    simp [hm.1, hm.2] at h
  | case4 c d cs hm ih =>
    rw [hasPair_cons_eq, Bool.or_eq_false_iff] at h
    rw [replacePairAll_cons₂_neg r cs hm, ih h.2]

theorem replacePairAll_append (a b : Char) (r : List Char) :
    ∀ (xs ys : List Char),
      (∀ x y, xs.getLast? = some x → ys.head? = some y →
        (decide (x = a) && decide (y = b)) = false) →
      replacePairAll a b r (xs ++ ys) =
        replacePairAll a b r xs ++ replacePairAll a b r ys
  | [], ys, hj => by simp [replacePairAll_nil]
  | [c], ys, hj => by
    cases ys with
    | nil => simp [replacePairAll_nil]
    | cons y ys' =>
      have hcy := hj c y (by simp) (by simp)
      have hnm : ¬(c = a ∧ y = b) := by
        intro hh
        simp [hh.1, hh.2] at hcy
      rw [List.singleton_append, replacePairAll_cons₂_neg r ys' hnm,
        replacePairAll_singleton]
      rfl
  | c :: d :: xs', ys, hj => by
    by_cases hm : c = a ∧ d = b
    · rw [show ((c :: d :: xs') ++ ys) = c :: d :: (xs' ++ ys) from rfl]
      rw [replacePairAll_cons₂_pos r (xs' ++ ys) hm,
        replacePairAll_cons₂_pos r xs' hm, List.append_assoc]
      congr 1
      refine replacePairAll_append a b r xs' ys ?_
      intro x y hxl hyh
      exact hj x y (getLast?_cons_of_getLast? (getLast?_cons_of_getLast? hxl)) hyh
    · rw [show ((c :: d :: xs') ++ ys) = c :: ((d :: xs') ++ ys) from rfl]
      rw [show (d :: xs') ++ ys = d :: (xs' ++ ys) from rfl]
      rw [replacePairAll_cons₂_neg r (xs' ++ ys) hm,
        replacePairAll_cons₂_neg r xs' hm, List.cons_append]
      congr 1
      refine replacePairAll_append a b r (d :: xs') ys ?_
      intro x y hxl hyh
      exact hj x y (getLast?_cons_of_getLast? hxl) hyh

theorem unquoteWildcards_eq_self {l : List Char} (h : pctChar ∉ l) :
    unquoteWildcards l = l := by
  induction l using unquoteWildcards.induct with
  | case1 => simp [unquoteWildcards]
  | case2 => exact absurd (by simp) h
  | case3 cs ih => exact absurd (by simp) h
  | case4 c cs hnl hfail ih => exact absurd (by simp) h
  | case5 c cs hnl hok ih => exact absurd (by simp) h
  | case6 c cs hc ih =>
    rw [unquoteWildcards.eq_def]
    simp only [if_neg hc]
    rw [ih (fun hm => h (by simp [hm]))]

theorem unquoteLiterals_cons_ne {c : Char} {cs : List Char}
    (hc : ¬c = squote) :
    unquoteLiterals (c :: cs) = c :: unquoteLiterals cs := by
  rw [unquoteLiterals.eq_def]
  simp [hc]

theorem unquoteLiterals_cons_match {cs : List Char}
    (h1 : (cs.dropWhile (fun x => decide (x ≠ squote))).isEmpty = false)
    (h2 : (cs.takeWhile (fun x => decide (x ≠ squote))).isEmpty = false) :
    unquoteLiterals (squote :: cs) =
      (squote :: cs.takeWhile (fun x => decide (x ≠ squote)) ++ [squote]).filter
          (fun x => decide (x ≠ dquote)) ++
        unquoteLiterals ((cs.dropWhile (fun x => decide (x ≠ squote))).tail) := by
  rw [unquoteLiterals.eq_def]
  simp [h1, h2]
  intro hcontra
  exfalso
  rcases hcontra with hall | hhead
  · have hnil : (cs.dropWhile (fun x => decide (x ≠ squote))) = [] := by
      rw [List.dropWhile_eq_nil_iff]
      intro x hx
      simpa using hall x hx
    rw [hnil] at h1
    simp at h1
  · cases cs with
    | nil => simp at h2
    | cons a as =>
      have ha : a = squote := hhead (by simp)
      rw [List.takeWhile_cons] at h2
      simp [ha] at h2

theorem unquoteLiterals_eq_self {l : List Char} (h : squote ∉ l) :
    unquoteLiterals l = l := by
  induction l using unquoteLiterals.induct with
  | case1 => simp [unquoteLiterals]
  | case2 cs hfail ih => exact absurd (by simp) h
  | case3 cs hok ih => exact absurd (by simp) h
  | case4 c cs hc ih =>
    rw [unquoteLiterals_cons_ne hc]
    rw [ih (fun hm => h (by simp [hm]))]

theorem unquoteLiterals_append_left {xs ys : List Char} (h : squote ∉ xs) :
    unquoteLiterals (xs ++ ys) = xs ++ unquoteLiterals ys := by
  induction xs with
  | nil => rfl
  | cons c cs ih =>
    have hc : ¬c = squote := fun hh => h (by simp [hh])
    rw [List.cons_append, unquoteLiterals_cons_ne hc]
    rw [ih (fun hm => h (by simp [hm]))]
    rfl

theorem unquoteLiterals_literal {L Q : List Char} (hL : squote ∉ L)
    (hne : L ≠ []) (hQ : squote ∉ Q) :
    unquoteLiterals (squote :: L ++ squote :: Q) =
      squote :: L.filter (fun x => x ≠ dquote) ++ squote :: Q := by
  have htk : (L ++ squote :: Q).takeWhile (fun x => decide (x ≠ squote)) = L := by
    rw [takeWhile_append_negHead _ squote (by simp)]
    rw [List.takeWhile_eq_self_iff]
    intro x hx
    simp only [ne_eq, decide_eq_true_eq]
    exact fun hh => hL (hh ▸ hx)
  have hdp : (L ++ squote :: Q).dropWhile (fun x => decide (x ≠ squote)) =
      squote :: Q := by
    rw [dropWhile_append_negHead _ squote (by simp)]
    have hnil : L.dropWhile (fun x => decide (x ≠ squote)) = [] := by
      rw [List.dropWhile_eq_nil_iff]
      intro x hx
      simp only [ne_eq, decide_eq_true_eq]
      exact fun hh => hL (hh ▸ hx)
    rw [hnil, List.nil_append]
  rw [show (squote :: L ++ squote :: Q) = squote :: (L ++ squote :: Q) from rfl]
  rw [unquoteLiterals_cons_match (by rw [hdp]; rfl)
    (by rw [htk]; cases L with | nil => exact absurd rfl hne | cons a as => rfl)]
  rw [htk, hdp, List.tail_cons]
  rw [unquoteLiterals_eq_self hQ]
  have hsd : (decide (squote ≠ dquote)) = true := by decide
  simp only [List.filter_append, List.filter_cons, hsd, if_pos]
  simp only [List.filter_nil, List.cons_append, List.nil_append]
  rw [List.append_assoc]
  rfl

theorem mem_of_getLast? {l : List Char} {x : Char} (h : l.getLast? = some x) :
    x ∈ l := by
  have hd := List.dropLast_append_getLast? x (by rw [h]; rfl)
  rw [← hd]
  simp

theorem quoteBareIdentifiers_nil : quoteBareIdentifiers [] = [] := by
  simp [quoteBareIdentifiers]

theorem quoteBareIdentifiers_cons_word {c : Char} {cs : List Char}
    (hc : isWordChar c = true) :
    quoteBareIdentifiers (c :: cs) =
      quoteRun ((c :: cs).takeWhile isWordChar) ++
        quoteBareIdentifiers ((c :: cs).dropWhile isWordChar) := by
  rw [quoteBareIdentifiers.eq_def]
  simp [hc]

theorem quoteBareIdentifiers_cons_nonword {c : Char} {cs : List Char}
    (hc : isWordChar c = false) :
    quoteBareIdentifiers (c :: cs) = c :: quoteBareIdentifiers cs := by
  rw [quoteBareIdentifiers.eq_def]
  simp [hc]

theorem quoteBareIdentifiers_append_nonword (c : Char) (hc : isWordChar c = false)
    (xs ys : List Char) :
    quoteBareIdentifiers (xs ++ c :: ys) =
      quoteBareIdentifiers xs ++ c :: quoteBareIdentifiers ys := by
  induction xs using quoteBareIdentifiers.induct with
  | case1 =>
    rw [List.nil_append, quoteBareIdentifiers_nil, List.nil_append,
      quoteBareIdentifiers_cons_nonword hc]
  | case2 c' cs hw ih =>
    have e1 : ((c' :: cs) ++ c :: ys).takeWhile isWordChar =
        (c' :: cs).takeWhile isWordChar := takeWhile_append_negHead _ c hc _ _
    have e2 : ((c' :: cs) ++ c :: ys).dropWhile isWordChar =
        (c' :: cs).dropWhile isWordChar ++ c :: ys :=
      dropWhile_append_negHead _ c hc _ _
    rw [show ((c' :: cs) ++ c :: ys) = c' :: (cs ++ c :: ys) from rfl] at e1 e2 ⊢
    rw [quoteBareIdentifiers_cons_word hw, e1, e2, ih]
    conv_rhs => rw [quoteBareIdentifiers_cons_word hw]
    rw [List.append_assoc]
  | case3 c' cs hnw ih =>
    have hnw' : isWordChar c' = false := by
      revert hnw; cases isWordChar c' <;> simp
    rw [show ((c' :: cs) ++ c :: ys) = c' :: (cs ++ c :: ys) from rfl]
    rw [quoteBareIdentifiers_cons_nonword hnw', ih,
      quoteBareIdentifiers_cons_nonword hnw']
    rfl

theorem mem_quoteRun {x : Char} {run : List Char} (h : x ∈ quoteRun run) :
    x ∈ run ∨ x = dquote := by
  unfold quoteRun at h
  split_ifs at h with h1 h2
  · exact Or.inl h
  · rcases List.mem_cons.mp h with h | h
    · exact Or.inr h
    · rcases List.mem_append.mp h with h | h
      · exact Or.inl h
      · simp at h
        exact Or.inr h
  · exact Or.inl h

theorem mem_quoteBareIdentifiers {x : Char} :
    ∀ {l : List Char}, x ∈ quoteBareIdentifiers l → x ∈ l ∨ x = dquote := by
  intro l
  induction l using quoteBareIdentifiers.induct with
  | case1 =>
    intro h
    rw [quoteBareIdentifiers_nil] at h
    simp at h
  | case2 c cs hw ih =>
    intro h
    rw [quoteBareIdentifiers_cons_word hw] at h
    rcases List.mem_append.mp h with h | h
    · rcases mem_quoteRun h with h | h
      · exact Or.inl ((List.takeWhile_prefix _).subset h)
      · exact Or.inr h
    · rcases ih h with h | h
      · exact Or.inl ((List.dropWhile_sublist _).subset h)
      · exact Or.inr h
  | case3 c cs hnw ih =>
    intro h
    have hnw' : isWordChar c = false := by
      revert hnw; cases isWordChar c <;> simp
    rw [quoteBareIdentifiers_cons_nonword hnw'] at h
    rcases List.mem_cons.mp h with h | h
    · exact Or.inl (h ▸ List.mem_cons_self _ _)
    · rcases ih h with h | h
      · exact Or.inl (List.mem_cons_of_mem _ h)
      · exact Or.inr h

theorem quoteRun_filter (run : List Char) :
    (quoteRun run).filter (fun x => decide (x ≠ dquote)) =
      run.filter (fun x => decide (x ≠ dquote)) := by
  unfold quoteRun
  split_ifs with h1 h2
  · rfl
  · simp [List.filter_append, List.filter_cons]
  · rfl

theorem quoteBareIdentifiers_filter :
    ∀ (l : List Char),
      (quoteBareIdentifiers l).filter (fun x => decide (x ≠ dquote)) =
        l.filter (fun x => decide (x ≠ dquote)) := by
  intro l
  induction l using quoteBareIdentifiers.induct with
  | case1 => rw [quoteBareIdentifiers_nil]
  | case2 c cs hw ih =>
    rw [quoteBareIdentifiers_cons_word hw, List.filter_append, quoteRun_filter, ih]
    rw [← List.filter_append, List.takeWhile_append_dropWhile]
  | case3 c cs hnw ih =>
    have hnw' : isWordChar c = false := by
      revert hnw; cases isWordChar c <;> simp
    rw [quoteBareIdentifiers_cons_nonword hnw']
    simp only [List.filter_cons]
    have ih' := ih
    simp only [ne_eq, decide_not] at ih' ⊢
    rw [ih']

theorem quoteBareIdentifiers_getLast_nonword {l : List Char} {x : Char}
    (h : l.getLast? = some x) (hx : isWordChar x = false) :
    (quoteBareIdentifiers l).getLast? = some x := by
  have hdecomp : l.dropLast ++ [x] = l :=
    List.dropLast_append_getLast? x (by rw [h]; rfl)
  rw [← hdecomp, quoteBareIdentifiers_append_nonword x hx l.dropLast [],
    quoteBareIdentifiers_nil]
  exact List.getLast?_concat _

theorem hasPair_dq_quoteRun {run : List Char} (h : dquote ∉ run) :
    hasPair dquote dquote (quoteRun run) = false := by
  unfold quoteRun
  split_ifs with h1 h2
  · exact hasPair_false_not_fst h
  · have hrun : run ≠ [] := by
      rintro rfl
      simp [isIdentStart] at h1
    obtain ⟨r0, run', rfl⟩ := List.exists_cons_of_ne_nil hrun
    rw [show dquote :: (r0 :: run') ++ [dquote] =
      (dquote :: r0 :: run') ++ [dquote] from rfl]
    refine hasPair_false_append ?_ (by rfl) ?_
    · rw [hasPair_cons_eq, Bool.or_eq_false_iff]
      constructor
      · have hr0 : decide (r0 = dquote) = false :=
          decide_eq_false (fun hh => h (by simp [hh]))
        simp [hr0]
      · exact hasPair_false_not_fst h
    · intro x y hxl hyh
      have hx : x ∈ r0 :: run' := by
        rw [List.getLast?_cons_cons] at hxl
        exact mem_of_getLast? hxl
      have hxd : decide (x = dquote) = false :=
        decide_eq_false (fun hh => h (hh ▸ hx))
      simp [hxd]
  · exact hasPair_false_not_fst h

theorem hasPair_dq_quoteBareIdentifiers :
    ∀ {l : List Char}, dquote ∉ l →
      hasPair dquote dquote (quoteBareIdentifiers l) = false := by
  intro l
  induction l using quoteBareIdentifiers.induct with
  | case1 =>
    intro h
    rw [quoteBareIdentifiers_nil]
    rfl
  | case2 c cs hw ih =>
    intro h
    rw [quoteBareIdentifiers_cons_word hw]
    have hdq_tw : dquote ∉ (c :: cs).takeWhile isWordChar :=
      fun hm => h ((List.takeWhile_prefix _).subset hm)
    have hdq_dw : dquote ∉ (c :: cs).dropWhile isWordChar :=
      fun hm => h ((List.dropWhile_sublist _).subset hm)
    refine hasPair_false_append (hasPair_dq_quoteRun hdq_tw) (ih hdq_dw) ?_
    intro x y hxl hyh
    have hy : y ∈ (c :: cs).dropWhile isWordChar ∨ y = dquote := by
      cases hdw : (c :: cs).dropWhile isWordChar with
      | nil =>
        rw [hdw, quoteBareIdentifiers_nil] at hyh
        simp at hyh
      | cons d dw' =>
        have hdnw : isWordChar d = false := by
          have := List.head?_dropWhile_not isWordChar (c :: cs)
          rw [hdw] at this
          simpa using this
        rw [hdw, quoteBareIdentifiers_cons_nonword hdnw] at hyh
        simp at hyh
        subst hyh
        exact Or.inl (by simp)
    rcases hy with hy | hy
    · have hyd : decide (y = dquote) = false :=
        decide_eq_false (fun hh => hdq_dw (hh ▸ hy))
      simp [hyd]
    · exfalso
      cases hdw : (c :: cs).dropWhile isWordChar with
      | nil =>
        rw [hdw, quoteBareIdentifiers_nil] at hyh
        simp at hyh
      | cons d dw' =>
        have hdnw : isWordChar d = false := by
          have := List.head?_dropWhile_not isWordChar (c :: cs)
          rw [hdw] at this
          simpa using this
        rw [hdw, quoteBareIdentifiers_cons_nonword hdnw] at hyh
        simp at hyh
        subst hyh
        rw [hdw] at hdq_dw
        exact hdq_dw (hy ▸ List.mem_cons_self _ _)
  | case3 c cs hnw ih =>
    intro h
    have hnw' : isWordChar c = false := by
      revert hnw; cases isWordChar c <;> simp
    rw [quoteBareIdentifiers_cons_nonword hnw']
    rw [hasPair_cons_eq, Bool.or_eq_false_iff]
    have hc : decide (c = dquote) = false :=
      decide_eq_false (fun hh => h (by simp [hh]))
    constructor
    · cases (quoteBareIdentifiers cs).head? <;> simp [hc]
    · exact ih (fun hm => h (by simp [hm]))

theorem quoteBareIdentifiers_all_word {l : List Char} (hne : l ≠ [])
    (hall : ∀ c ∈ l, isWordChar c = true) :
    quoteBareIdentifiers l = quoteRun l := by
  cases l with
  | nil => exact absurd rfl hne
  | cons c cs =>
    rw [quoteBareIdentifiers_cons_word (hall c (by simp))]
    have h1 : (c :: cs).takeWhile isWordChar = c :: cs :=
      List.takeWhile_eq_self_iff.mpr hall
    have h2 : (c :: cs).dropWhile isWordChar = [] :=
      List.dropWhile_eq_nil_iff.mpr hall
    rw [h1, h2, quoteBareIdentifiers_nil, List.append_nil]

theorem getLast?_singleton_char (c : Char) : ([c] : List Char).getLast? = some c := rfl

theorem hasPair_sq_dq_region {P L Q : List Char} (hPsq : squote ∉ P)
    (hLsq : squote ∉ L) (hQsq : squote ∉ Q)
    (hLhead : ∀ x, L.head? = some x → x ≠ dquote)
    (hQhead : ∀ x, Q.head? = some x → x ≠ dquote) :
    hasPair squote dquote (P ++ squote :: L ++ squote :: Q) = false := by
  have hmid : hasPair squote dquote ((squote :: L) ++ (squote :: Q)) = false := by
    refine hasPair_false_append ?_ ?_ ?_
    · rw [hasPair_cons_eq, Bool.or_eq_false_iff]
      refine ⟨?_, hasPair_false_not_fst hLsq⟩
      cases hL : L.head? with
      | none => rfl
      | some x =>
        have hx : decide (x = dquote) = false :=
          decide_eq_false (hLhead x hL)
        simp [hx]
    · rw [hasPair_cons_eq, Bool.or_eq_false_iff]
      refine ⟨?_, hasPair_false_not_fst hQsq⟩
      cases hQ : Q.head? with
      | none => rfl
      | some x =>
        have hx : decide (x = dquote) = false :=
          decide_eq_false (hQhead x hQ)
        simp [hx]
    · intro x y hxl hyh
      simp only [List.head?_cons, Option.some.injEq] at hyh
      subst hyh
      simp [show decide (squote = dquote) = false from by decide]
  rw [show (P ++ squote :: L ++ squote :: Q) =
    P ++ ((squote :: L) ++ (squote :: Q)) from by simp]
  refine hasPair_false_append (hasPair_false_not_fst hPsq) hmid ?_
  intro x y hxl hyh
  simp only [List.cons_append, List.head?_cons, Option.some.injEq] at hyh
  subst hyh
  simp [show decide (squote = dquote) = false from by decide]

theorem hasPair_dq_sq_region {P L Q : List Char} (hPsq : squote ∉ P)
    (hLsq : squote ∉ L) (hQsq : squote ∉ Q)
    (hPlast : ∀ x, P.getLast? = some x → x ≠ dquote)
    (hLlast : ∀ x, L.getLast? = some x → x ≠ dquote) :
    hasPair dquote squote (P ++ squote :: L ++ squote :: Q) = false := by
  have hmid : hasPair dquote squote ((squote :: L) ++ (squote :: Q)) = false := by
    refine hasPair_false_append ?_ ?_ ?_
    · rw [hasPair_cons_eq, Bool.or_eq_false_iff]
      refine ⟨?_, hasPair_false_not_snd hLsq⟩
      cases hL : L.head? with
      | none => rfl
      | some x => simp [show decide (squote = dquote) = false from by decide]
    · rw [hasPair_cons_eq, Bool.or_eq_false_iff]
      refine ⟨?_, hasPair_false_not_snd hQsq⟩
      cases hQ : Q.head? with
      | none => rfl
      | some x => simp [show decide (squote = dquote) = false from by decide]
    · intro x y hxl hyh
      cases L with
      | nil =>
        simp only [getLast?_singleton_char, Option.some.injEq] at hxl
        subst hxl
        simp [show decide (squote = dquote) = false from by decide]
      | cons l0 L' =>
        rw [List.getLast?_cons_cons] at hxl
        have hx : x ≠ dquote := hLlast x hxl
        simp [decide_eq_false hx]
  rw [show (P ++ squote :: L ++ squote :: Q) =
    P ++ ((squote :: L) ++ (squote :: Q)) from by simp]
  refine hasPair_false_append (hasPair_false_not_snd hPsq) hmid ?_
  intro x y hxl hyh
  have hx : x ≠ dquote := hPlast x hxl
  simp [decide_eq_false hx]

theorem hasPair_dq_dq_region {P L Q : List Char}
    (hPdd : hasPair dquote dquote P = false)
    (hLdd : hasPair dquote dquote L = false)
    (hQdd : hasPair dquote dquote Q = false) :
    hasPair dquote dquote (P ++ squote :: L ++ squote :: Q) = false := by
  have hmid : hasPair dquote dquote ((squote :: L) ++ (squote :: Q)) = false := by
    refine hasPair_false_append ?_ ?_ ?_
    · rw [hasPair_cons_eq, Bool.or_eq_false_iff]
      refine ⟨?_, hLdd⟩
      cases L.head? <;> simp [show decide (squote = dquote) = false from by decide]
    · rw [hasPair_cons_eq, Bool.or_eq_false_iff]
      refine ⟨?_, hQdd⟩
      cases Q.head? <;> simp [show decide (squote = dquote) = false from by decide]
    · intro x y hxl hyh
      simp only [List.cons_append, List.head?_cons, Option.some.injEq] at hyh
      subst hyh
      simp [show decide (squote = dquote) = false from by decide]
  rw [show (P ++ squote :: L ++ squote :: Q) =
    P ++ ((squote :: L) ++ (squote :: Q)) from by simp]
  refine hasPair_false_append hPdd hmid ?_
  intro x y hxl hyh
  simp only [List.cons_append, List.head?_cons, Option.some.injEq] at hyh
  subst hyh
  simp [show decide (squote = dquote) = false from by decide]

theorem rp2_open_merge {P L2 Q : List Char} (hPsq : squote ∉ P)
    (hL2sq : squote ∉ L2) (hQsq : squote ∉ Q)
    (hQhead : ∀ x, Q.head? = some x → x ≠ dquote) :
    replacePairAll squote dquote [squote]
      (P ++ squote :: dquote :: L2 ++ squote :: Q) =
      P ++ squote :: L2 ++ squote :: Q := by
  have hsplit : replacePairAll squote dquote [squote]
      (P ++ (squote :: dquote :: (L2 ++ squote :: Q))) =
      replacePairAll squote dquote [squote] P ++
        replacePairAll squote dquote [squote]
          (squote :: dquote :: (L2 ++ squote :: Q)) := by
    refine replacePairAll_append squote dquote [squote] P _ ?_
    intro x y hxl hyh
    simp only [List.head?_cons, Option.some.injEq] at hyh
    subst hyh
    simp [show decide (squote = squote) = true from by decide,
      show decide (squote = dquote) = false from by decide]
  have hP : replacePairAll squote dquote [squote] P = P :=
    replacePairAll_eq_self _ _ _ _ (hasPair_false_not_fst hPsq)
  have hmatch : replacePairAll squote dquote [squote]
      (squote :: dquote :: (L2 ++ squote :: Q)) =
      [squote] ++ replacePairAll squote dquote [squote] (L2 ++ squote :: Q) :=
    replacePairAll_cons₂_pos _ _ ⟨rfl, rfl⟩
  have hrest : replacePairAll squote dquote [squote] (L2 ++ squote :: Q) =
      L2 ++ squote :: Q := by
    refine replacePairAll_eq_self _ _ _ _ ?_
    have hLhead : ∀ x, (squote :: Q).head? = some x → True := fun _ _ => trivial
    have : hasPair squote dquote ((L2 ++ [squote]) ++ Q) = false := by
      refine hasPair_false_append ?_ (hasPair_false_not_fst hQsq) ?_
      · refine hasPair_false_append (hasPair_false_not_fst hL2sq) (by rfl) ?_
        intro x y hxl hyh
        simp only [List.head?_cons, Option.some.injEq] at hyh
        subst hyh
        simp [show decide (squote = dquote) = false from by decide]
      · intro x y hxl hyh
        have hy : y ≠ dquote := hQhead y hyh
        simp [decide_eq_false hy]
    simpa using this
  calc replacePairAll squote dquote [squote]
        (P ++ squote :: dquote :: L2 ++ squote :: Q)
      = replacePairAll squote dquote [squote]
          (P ++ (squote :: dquote :: (L2 ++ squote :: Q))) := by simp
    _ = P ++ ([squote] ++ (L2 ++ squote :: Q)) := by
        rw [hsplit, hP, hmatch, hrest]
    _ = P ++ squote :: L2 ++ squote :: Q := by simp

theorem rp3_close_merge {P L3 Q : List Char} (hPsq : squote ∉ P)
    (hL3sq : squote ∉ L3) (hQsq : squote ∉ Q)
    (hPlast : ∀ x, P.getLast? = some x → x ≠ dquote) :
    replacePairAll dquote squote [squote]
      (P ++ squote :: (L3 ++ [dquote]) ++ squote :: Q) =
      P ++ squote :: L3 ++ squote :: Q := by
  have hsplit : replacePairAll dquote squote [squote]
      ((P ++ squote :: L3) ++ (dquote :: squote :: Q)) =
      replacePairAll dquote squote [squote] (P ++ squote :: L3) ++
        replacePairAll dquote squote [squote] (dquote :: squote :: Q) := by
    refine replacePairAll_append dquote squote [squote] _ _ ?_
    intro x y hxl hyh
    simp only [List.head?_cons, Option.some.injEq] at hyh
    subst hyh
    simp [show decide (dquote = squote) = false from by decide]
  have hleft : replacePairAll dquote squote [squote] (P ++ squote :: L3) =
      P ++ squote :: L3 := by
    refine replacePairAll_eq_self _ _ _ _ ?_
    refine hasPair_false_append (hasPair_false_not_snd hPsq) ?_ ?_
    · rw [hasPair_cons_eq, Bool.or_eq_false_iff]
      refine ⟨?_, hasPair_false_not_snd hL3sq⟩
      cases L3.head? <;>
        simp [show decide (squote = dquote) = false from by decide]
    · intro x y hxl hyh
      simp only [List.head?_cons, Option.some.injEq] at hyh
      subst hyh
      have hx : x ≠ dquote := hPlast x hxl
      simp [decide_eq_false hx]
  have hmatch : replacePairAll dquote squote [squote] (dquote :: squote :: Q) =
      [squote] ++ replacePairAll dquote squote [squote] Q :=
    replacePairAll_cons₂_pos _ _ ⟨rfl, rfl⟩
  have hQ : replacePairAll dquote squote [squote] Q = Q :=
    replacePairAll_eq_self _ _ _ _ (hasPair_false_not_snd hQsq)
  calc replacePairAll dquote squote [squote]
        (P ++ squote :: (L3 ++ [dquote]) ++ squote :: Q)
      = replacePairAll dquote squote [squote]
          ((P ++ squote :: L3) ++ (dquote :: squote :: Q)) := by simp
    _ = (P ++ squote :: L3) ++ ([squote] ++ Q) := by rw [hsplit, hleft, hmatch, hQ]
    _ = P ++ squote :: L3 ++ squote :: Q := by simp

theorem repairStages_shape {P L Q : List Char} (hPsq : squote ∉ P)
    (hLsq : squote ∉ L) (hQsq : squote ∉ Q)
    (hPlast : ∀ x, P.getLast? = some x → x ≠ dquote)
    (hQhead : ∀ x, Q.head? = some x → x ≠ dquote)
    (hLdd : hasPair dquote dquote L = false) :
    ∃ L', squote ∉ L' ∧ (∀ x ∈ L', x ∈ L) ∧
      L'.filter (fun x => decide (x ≠ dquote)) =
        L.filter (fun x => decide (x ≠ dquote)) ∧
      hasPair dquote dquote L' = false ∧
      replacePairAll dquote squote [squote]
        (replacePairAll squote dquote [squote] (P ++ squote :: L ++ squote :: Q))
        = P ++ squote :: L' ++ squote :: Q := by
  have hstep2 : ∃ L1, squote ∉ L1 ∧ (∀ x ∈ L1, x ∈ L) ∧
      L1.filter (fun x => decide (x ≠ dquote)) =
        L.filter (fun x => decide (x ≠ dquote)) ∧
      hasPair dquote dquote L1 = false ∧
      replacePairAll squote dquote [squote] (P ++ squote :: L ++ squote :: Q)
        = P ++ squote :: L1 ++ squote :: Q := by
    cases L with
    | nil =>
      refine ⟨[], by simp, by simp, rfl, rfl, ?_⟩
      rw [replacePairAll_eq_self]
      exact hasPair_sq_dq_region hPsq (by simp) hQsq (by simp) hQhead
    | cons l0 L2 =>
      by_cases hl0 : l0 = dquote
      · subst hl0
        have hL2sq : squote ∉ L2 := fun hm => hLsq (List.mem_cons_of_mem _ hm)
        refine ⟨L2, hL2sq, fun x hm => List.mem_cons_of_mem _ hm, ?_, ?_, ?_⟩
        · rw [List.filter_cons]
          simp
        · exact hasPair_false_tail hLdd
        · exact rp2_open_merge hPsq hL2sq hQsq hQhead
      · refine ⟨l0 :: L2, hLsq, fun x hm => hm, rfl, hLdd, ?_⟩
        rw [replacePairAll_eq_self]
        refine hasPair_sq_dq_region hPsq hLsq hQsq ?_ hQhead
        intro x hx
        rw [List.head?_cons, Option.some.injEq] at hx
        subst hx
        exact hl0
  obtain ⟨L1, hL1sq, hL1sub, hL1filter, hL1dd, hL1eq⟩ := hstep2
  rw [hL1eq]
  by_cases hlast : L1.getLast? = some dquote
  · have hdecomp : L1.dropLast ++ [dquote] = L1 :=
      List.dropLast_append_getLast? dquote (by rw [hlast]; rfl)
    refine ⟨L1.dropLast,
      fun hm => hL1sq (List.mem_of_mem_dropLast hm),
      fun x hm => hL1sub x (List.mem_of_mem_dropLast hm), ?_,
      hasPair_false_dropLast hL1dd, ?_⟩
    · rw [← hL1filter]
      conv_rhs => rw [← hdecomp]
      rw [List.filter_append]
      simp
    · conv_lhs => rw [← hdecomp]
      exact rp3_close_merge hPsq
        (fun hm => hL1sq (List.mem_of_mem_dropLast hm)) hQsq hPlast
  · refine ⟨L1, hL1sq, hL1sub, hL1filter, hL1dd, ?_⟩
    rw [replacePairAll_eq_self]
    refine hasPair_dq_sq_region hPsq hL1sq hQsq hPlast ?_
    intro x hx hxd
    exact hlast (hxd ▸ hx)

theorem tokensChars_nil : tokensChars [] = [] := by simp [tokensChars]

theorem tokensChars_cons (t : SqlToken) (ts : List SqlToken) :
    tokensChars (t :: ts) = tokenChars t ++ tokensChars ts := by
  simp [tokensChars]

theorem qbiSegs_nil : qbiSegs [] = [] := by simp [qbiSegs]

theorem qbiSegs_cons (t : SqlToken) (ts : List SqlToken) :
    qbiSegs (t :: ts) = qbiSeg t ++ qbiSegs ts := by
  simp [qbiSegs]

theorem tokenOk_kw_parts {w : List Char} (h : tokenOk (SqlToken.kw w) = true) :
    w ≠ [] ∧ (∀ c ∈ w, isWordChar c = true) ∧ isKeywordOrFunctionName w = true := by
  simp only [tokenOk, Bool.and_eq_true, Bool.not_eq_true'] at h
  refine ⟨?_, ?_, h.2⟩
  · intro hh
    rw [hh] at h
    simp at h
  · intro c hc
    exact List.all_eq_true.mp h.1.2 c hc

theorem tokenOk_quoted_parts {w : List Char} (h : tokenOk (SqlToken.quoted w) = true) :
    w ≠ [] ∧ (∀ c ∈ w, isWordChar c = true) := by
  simp only [tokenOk, Bool.and_eq_true, Bool.not_eq_true'] at h
  refine ⟨?_, ?_⟩
  · intro hh
    rw [hh] at h
    simp at h
  · intro c hc
    exact List.all_eq_true.mp h.2 c hc

theorem tokenOk_sep_parts {c : Char} (h : tokenOk (SqlToken.sep c) = true) :
    isWordChar c = false ∧ c ≠ dquote ∧ c ≠ squote ∧ c ≠ pctChar := by
  simp only [tokenOk, Bool.and_eq_true, Bool.not_eq_true', decide_eq_false_iff_not] at h
  exact ⟨h.1.1.1, h.1.1.2, h.1.2, h.2⟩

theorem tokenChars_no_sq_pct {x : Char} {t : SqlToken} (hok : tokenOk t = true)
    (hx : x ∈ tokenChars t) : x ≠ squote ∧ x ≠ pctChar := by
  have hword : ∀ y : Char, isWordChar y = true → y ≠ squote ∧ y ≠ pctChar := by
    intro y hy
    constructor
    · rintro rfl
      exact absurd hy (by decide)
    · rintro rfl
      exact absurd hy (by decide)
  cases t with
  | kw w =>
    obtain ⟨_, hall, _⟩ := tokenOk_kw_parts hok
    exact hword x (hall x hx)
  | quoted w =>
    obtain ⟨_, hall⟩ := tokenOk_quoted_parts hok
    simp only [tokenChars, List.mem_cons, List.mem_append,
      List.mem_singleton] at hx
    rcases hx with (h | h) | (h | h)
    · rw [h]; exact ⟨by decide, by decide⟩
    · exact hword x (hall x h)
    · rw [h]; exact ⟨by decide, by decide⟩
    · exact absurd h (List.not_mem_nil x)
  | sep c =>
    obtain ⟨_, _, hsq, hpc⟩ := tokenOk_sep_parts hok
    simp only [tokenChars, List.mem_singleton] at hx
    subst hx
    exact ⟨hsq, hpc⟩

theorem tokensChars_no_sq_pct {ts : List SqlToken}
    (hok : ∀ t ∈ ts, tokenOk t = true) :
    ∀ x ∈ tokensChars ts, x ≠ squote ∧ x ≠ pctChar := by
  intro x hx
  rw [tokensChars] at hx
  obtain ⟨l, hl, hxl⟩ := List.mem_flatten.mp hx
  obtain ⟨t, ht, rfl⟩ := List.mem_map.mp hl
  exact tokenChars_no_sq_pct (hok t ht) hxl

theorem mem_qbiSeg {x : Char} {t : SqlToken} (hx : x ∈ qbiSeg t) :
    x ∈ tokenChars t ∨ x = dquote := by
  cases t with
  | kw w =>
    rcases mem_quoteRun hx with h | h
    · exact Or.inl h
    · exact Or.inr h
  | quoted w =>
    simp only [qbiSeg, List.mem_cons, List.mem_append, List.mem_singleton] at hx
    rcases hx with (h | h) | (h | h)
    · exact Or.inr h
    · rcases mem_quoteRun h with h3 | h3
      · exact Or.inl (by simp [tokenChars, h3])
      · exact Or.inr h3
    · exact Or.inr h
    · exact absurd h (List.not_mem_nil x)
  | sep c => exact Or.inl hx

theorem qbiSegs_no_sq_pct {ts : List SqlToken}
    (hok : ∀ t ∈ ts, tokenOk t = true) :
    ∀ x ∈ qbiSegs ts, x ≠ squote ∧ x ≠ pctChar := by
  intro x hx
  rw [qbiSegs] at hx
  obtain ⟨l, hl, hxl⟩ := List.mem_flatten.mp hx
  obtain ⟨t, ht, rfl⟩ := List.mem_map.mp hl
  rcases mem_qbiSeg hxl with h | h
  · exact tokenChars_no_sq_pct (hok t ht) h
  · subst h
    exact ⟨by decide, by decide⟩

theorem okAdj_tail {t : SqlToken} {ts : List SqlToken}
    (h : okAdj (t :: ts) = true) : okAdj ts = true := by
  cases ts with
  | nil => rfl
  | cons u ts' =>
    simp only [okAdj, Bool.and_eq_true] at h
    exact h.2

theorem okAdj_pair {t u : SqlToken} {ts : List SqlToken}
    (h : okAdj (t :: u :: ts) = true) : okAdjPair t u = true := by
  simp only [okAdj, Bool.and_eq_true] at h
  exact h.1

theorem quoteRun_keyword {w : List Char} (h : isKeywordOrFunctionName w = true) :
    quoteRun w = w := by
  unfold quoteRun
  rw [h]
  simp

theorem quoteRun_cases (w : List Char) :
    quoteRun w = w ∨ quoteRun w = dquote :: w ++ [dquote] := by
  unfold quoteRun
  split_ifs
  · exact Or.inl rfl
  · exact Or.inr rfl
  · exact Or.inl rfl

theorem qbi_tokensChars :
    ∀ (ts : List SqlToken), (∀ t ∈ ts, tokenOk t = true) → okAdj ts = true →
      quoteBareIdentifiers (tokensChars ts) = qbiSegs ts
  | [], _, _ => by rw [tokensChars_nil, qbiSegs_nil, quoteBareIdentifiers_nil]
  | t :: ts', hok, hadj => by
    have hok' : ∀ u ∈ ts', tokenOk u = true :=
      fun u hu => hok u (List.mem_cons_of_mem _ hu)
    have hih := qbi_tokensChars ts' hok' (okAdj_tail hadj)
    rw [tokensChars_cons, qbiSegs_cons]
    cases t with
    | sep c =>
      have hc : isWordChar c = false :=
        (tokenOk_sep_parts (hok _ (List.mem_cons_self _ _))).1
      rw [show tokenChars (SqlToken.sep c) ++ tokensChars ts' =
        c :: tokensChars ts' from rfl]
      rw [quoteBareIdentifiers_cons_nonword hc, hih]
      rfl
    | quoted w =>
      obtain ⟨hne, hall⟩ :=
        tokenOk_quoted_parts (hok _ (List.mem_cons_self _ _))
      have hdqw : isWordChar dquote = false := by decide
      rw [show tokenChars (SqlToken.quoted w) ++ tokensChars ts' =
        dquote :: (w ++ dquote :: tokensChars ts') from by
          simp [tokenChars]]
      rw [quoteBareIdentifiers_cons_nonword hdqw,
        quoteBareIdentifiers_append_nonword dquote hdqw w _,
        quoteBareIdentifiers_all_word hne hall, hih]
      simp [qbiSeg]
    | kw w =>
      obtain ⟨hne, hall, hkw⟩ :=
        tokenOk_kw_parts (hok _ (List.mem_cons_self _ _))
      cases ts' with
      | nil =>
        rw [tokensChars_nil, qbiSegs_nil, List.append_nil, List.append_nil]
        exact quoteBareIdentifiers_all_word hne hall
      | cons u ts'' =>
        obtain ⟨c0, rest', hrest, hc0⟩ : ∃ c0 rest',
            tokensChars (u :: ts'') = c0 :: rest' ∧ isWordChar c0 = false := by
          cases u with
          | kw w' =>
            have := okAdj_pair hadj
            simp [okAdjPair] at this
          | quoted w' =>
            refine ⟨dquote, w' ++ [dquote] ++ tokensChars ts'', ?_, by decide⟩
            rw [tokensChars_cons]
            simp [tokenChars]
          | sep c =>
            refine ⟨c, tokensChars ts'', ?_,
              (tokenOk_sep_parts (hok' _ (List.mem_cons_self _ _))).1⟩
            rw [tokensChars_cons]
            rfl
        rw [show tokenChars (SqlToken.kw w) = w from rfl, hrest,
          quoteBareIdentifiers_append_nonword c0 hc0 w rest',
          quoteBareIdentifiers_all_word hne hall,
          ← quoteBareIdentifiers_cons_nonword hc0, ← hrest, hih]
        rfl

theorem replacePairAll_cons_ne_fst {a b : Char} (r : List Char) {c : Char}
    (hc : c ≠ a) (l : List Char) :
    replacePairAll a b r (c :: l) = c :: replacePairAll a b r l := by
  cases l with
  | nil => rw [replacePairAll_singleton, replacePairAll_nil]
  | cons d l' => exact replacePairAll_cons₂_neg r l' (fun hh => hc hh.1)

theorem qbiSegs_head_ne_dq {ts : List SqlToken}
    (hok : ∀ t ∈ ts, tokenOk t = true)
    (hq : ∀ w, ts.head? ≠ some (SqlToken.quoted w)) :
    ∀ y, (qbiSegs ts).head? = some y → y ≠ dquote := by
  intro y hy
  cases ts with
  | nil =>
    rw [qbiSegs_nil] at hy
    simp at hy
  | cons t ts' =>
    cases t with
    | quoted w => exact absurd rfl (hq w)
    | sep c =>
      rw [qbiSegs_cons] at hy
      simp only [qbiSeg, List.cons_append, List.head?_cons,
        Option.some.injEq] at hy
      subst hy
      exact (tokenOk_sep_parts (hok _ (List.mem_cons_self _ _))).2.1
    | kw w =>
      obtain ⟨hne, hall, hkw⟩ := tokenOk_kw_parts (hok _ (List.mem_cons_self _ _))
      rw [qbiSegs_cons] at hy
      simp only [qbiSeg, quoteRun_keyword hkw] at hy
      cases w with
      | nil => exact absurd rfl hne
      | cons w0 w' =>
        simp only [List.cons_append, List.head?_cons, Option.some.injEq] at hy
        subst hy
        intro hh
        have := hall w0 (by simp)
        rw [hh] at this
        exact absurd this (by decide)

theorem dq_not_mem_of_all_word {w : List Char}
    (hall : ∀ c ∈ w, isWordChar c = true) : dquote ∉ w := by
  intro hm
  have := hall dquote hm
  exact absurd this (by decide)

theorem rp4_word_append {w : List Char} (X : List Char)
    (hall : ∀ c ∈ w, isWordChar c = true) :
    replacePairAll dquote dquote [dquote] (w ++ X) =
      w ++ replacePairAll dquote dquote [dquote] X := by
  have hsplit := replacePairAll_append dquote dquote [dquote] w X (by
    intro x y hxl hyh
    have hx : x ∈ w := mem_of_getLast? hxl
    have : decide (x = dquote) = false := by
      refine decide_eq_false ?_
      rintro rfl
      exact dq_not_mem_of_all_word hall hx
    simp [this])
  rw [hsplit,
    replacePairAll_eq_self _ _ _ _ (hasPair_false_not_fst
      (dq_not_mem_of_all_word hall))]

theorem rp4_qbiSegs :
    ∀ (ts : List SqlToken), (∀ t ∈ ts, tokenOk t = true) → okAdj ts = true →
      replacePairAll dquote dquote [dquote] (qbiSegs ts) = tokensChars ts
  | [], _, _ => by rw [qbiSegs_nil, tokensChars_nil, replacePairAll_nil]
  | t :: ts', hok, hadj => by
    have hok' : ∀ u ∈ ts', tokenOk u = true :=
      fun u hu => hok u (List.mem_cons_of_mem _ hu)
    have hih := rp4_qbiSegs ts' hok' (okAdj_tail hadj)
    rw [qbiSegs_cons, tokensChars_cons]
    cases t with
    | sep c =>
      have hc : c ≠ dquote :=
        (tokenOk_sep_parts (hok _ (List.mem_cons_self _ _))).2.1
      rw [show qbiSeg (SqlToken.sep c) ++ qbiSegs ts' = c :: qbiSegs ts' from rfl]
      rw [replacePairAll_cons_ne_fst _ hc, hih]
      rfl
    | kw w =>
      obtain ⟨hne, hall, hkw⟩ := tokenOk_kw_parts (hok _ (List.mem_cons_self _ _))
      rw [show qbiSeg (SqlToken.kw w) = quoteRun w from rfl, quoteRun_keyword hkw]
      rw [rp4_word_append _ hall, hih]
      rfl
    | quoted w =>
      obtain ⟨hne, hall⟩ := tokenOk_quoted_parts (hok _ (List.mem_cons_self _ _))
      have hq' : ∀ w', ts'.head? ≠ some (SqlToken.quoted w') := by
        intro w' hh
        cases ts' with
        | nil => simp at hh
        | cons u ts'' =>
          simp only [List.head?_cons, Option.some.injEq] at hh
          subst hh
          have := okAdj_pair hadj
          simp [okAdjPair] at this
      have hdqX : replacePairAll dquote dquote [dquote] (dquote :: qbiSegs ts') =
          dquote :: tokensChars ts' := by
        cases hsegs : qbiSegs ts' with
        | nil =>
          rw [replacePairAll_singleton]
          have : tokensChars ts' = [] := by
            rw [← hih, hsegs, replacePairAll_nil]
          rw [this]
        | cons y rest =>
          have hy : y ≠ dquote :=
            qbiSegs_head_ne_dq hok' hq' y (by rw [hsegs]; rfl)
          rw [replacePairAll_cons₂_neg _ _ (fun hh => hy hh.2), ← hsegs, hih]
      rcases quoteRun_cases w with hqr | hqr
      · obtain ⟨w0, w'', rfl⟩ := List.exists_cons_of_ne_nil hne
        have hw0 : w0 ≠ dquote := by
          rintro rfl
          have := hall dquote (by simp)
          exact absurd this (by decide)
        rw [show qbiSeg (SqlToken.quoted (w0 :: w'')) ++ qbiSegs ts' =
          dquote :: (w0 :: w'') ++ dquote :: qbiSegs ts' from by
            simp [qbiSeg, hqr]]
        rw [show dquote :: (w0 :: w'') ++ dquote :: qbiSegs ts' =
          dquote :: w0 :: (w'' ++ dquote :: qbiSegs ts') from by simp]
        rw [replacePairAll_cons₂_neg _ _ (fun hh => hw0 hh.2)]
        rw [show w0 :: (w'' ++ dquote :: qbiSegs ts') =
          (w0 :: w'') ++ dquote :: qbiSegs ts' from rfl]
        rw [rp4_word_append _ hall, hdqX]
        simp [tokenChars]
      · rw [show qbiSeg (SqlToken.quoted w) ++ qbiSegs ts' =
          dquote :: dquote :: (w ++ dquote :: dquote :: qbiSegs ts') from by
            simp [qbiSeg, hqr]]
        rw [replacePairAll_cons₂_pos _ _ ⟨rfl, rfl⟩]
        rw [rp4_word_append _ hall]
        rw [replacePairAll_cons₂_pos _ _ ⟨rfl, rfl⟩]
        rw [hih]
        simp [tokenChars]

theorem enforceCaseSensitivity_wf_fixed (ts : List SqlToken)
    (hok : ∀ t ∈ ts, tokenOk t = true) (hadj : okAdj ts = true) :
    enforceCaseSensitivity (tokensChars ts) = tokensChars ts := by
  have hsq : squote ∉ qbiSegs ts :=
    fun hm => (qbiSegs_no_sq_pct hok squote hm).1 rfl
  have hsq2 : squote ∉ tokensChars ts :=
    fun hm => (tokensChars_no_sq_pct hok squote hm).1 rfl
  have hpct : pctChar ∉ tokensChars ts :=
    fun hm => (tokensChars_no_sq_pct hok pctChar hm).2 rfl
  rw [enforceCaseSensitivity]
  rw [qbi_tokensChars ts hok hadj]
  rw [replacePairAll_eq_self _ _ _ _ (hasPair_false_not_fst hsq)]
  rw [replacePairAll_eq_self _ _ _ _ (hasPair_false_not_snd hsq)]
  rw [rp4_qbiSegs ts hok hadj]
  rw [unquoteWildcards_eq_self hpct]
  rw [unquoteLiterals_eq_self hsq2]

theorem containsSub_eq_true_iff (n h : List Char) :
    containsSub n h = true ↔ n <:+: h := by
  induction h with
  | nil =>
    simp [containsSub, List.isEmpty_iff]
  | cons c cs ih =>
    simp only [containsSub, Bool.or_eq_true, List.isPrefixOf_iff_prefix, ih,
      List.infix_cons_iff]

theorem promiseAll_ok_inv {ε α : Type} (xs : List (Except ε α)) (l : List α)
    (h : promiseAll xs = .ok l) :
    ∀ ys (ly : List α), promiseAll ys = .ok ly →
      promiseAll (xs ++ ys) = .ok (l ++ ly) := by
  induction xs generalizing l with
  | nil =>
    intro ys ly hy
    simp only [promiseAll] at h
    cases h
    simpa using hy
  | cons x xs ih =>
    intro ys ly hy
    cases x with
    | error e => simp [promiseAll] at h
    | ok a =>
      simp only [promiseAll] at h
      cases hxs : promiseAll xs with
      | error e => rw [hxs] at h; simp [Except.map] at h
      | ok l0 =>
        rw [hxs] at h
        simp only [Except.map] at h
        cases h
        simp only [List.cons_append, promiseAll, Except.map]
        rw [show xs.append ys = xs ++ ys from rfl, ih l0 hxs ys ly hy]

/-! ## Claim theorems -/

/-- Claim C2: `isDangerousQuery(sql)` is true iff the upper-cased text
contains at least one of the nine denylisted substrings; in particular it
is true for "drop", "DROP" and "DrOp" and false for a pure SELECT free of
the denylisted substrings. -/
theorem isDangerousQuery_spec :
    (∀ q : List Char, isDangerousQuery q = true ↔
      ∃ kw ∈ dangerousKeywords, kw <:+: q.map Char.toUpper) ∧
    isDangerousQuery "drop".toList = true ∧
    isDangerousQuery "DROP".toList = true ∧
    isDangerousQuery "DrOp".toList = true ∧
    isDangerousQuery "SELECT name, marketCapUSD FROM fundamentals_view LIMIT 10".toList
      = false := by
  refine ⟨?_, by decide, by decide, by decide, by decide⟩
  intro q
  simp only [isDangerousQuery, Bool.or_eq_true, containsSub_eq_true_iff,
    dangerousKeywords, List.map_cons, List.map_nil, List.mem_cons,
    List.not_mem_nil, or_false, exists_eq_or_imp, exists_eq_left]
  tauto

/-- Claim C5: if the combined query-execution result is empty, the route
substitutes the ticker matches as the evidence handed to the synthesizer;
if at least one comparison row was produced, they are not substituted. -/
theorem routeComparisonData_fallback :
    ∀ (cd : List Row) (tm : List TickerMatch),
      (cd = [] → routeComparisonData cd tm = tm.map Sum.inr) ∧
      (cd ≠ [] → routeComparisonData cd tm = cd.map Sum.inl) := by
  intro cd tm
  constructor
  · rintro rfl
    simp [routeComparisonData]
  · intro h
    simp [routeComparisonData, h]

/-- Witness for C5 at concrete inputs. -/
theorem routeComparisonData_fallback_witness :
    routeComparisonData [] [tmEx] = [Sum.inr tmEx] ∧
    routeComparisonData [Row.dataRow "r".toList] [tmEx] =
      [Sum.inl (Row.dataRow "r".toList)] := by
  constructor
  · simpa using (routeComparisonData_fallback [] [tmEx]).1 rfl
  · simpa using
      (routeComparisonData_fallback [Row.dataRow "r".toList] [tmEx]).2 (by simp)

/-- Claim C6: with no candidate names, no prior-turn tickers and no
trade-intent flag, the ticker resolver returns an empty sequence and
performs no catalog lookup, regardless of all other flags. -/
theorem generateTickersExtraction_shortCircuit :
    ∀ (catalog : CatalogCall → Option (List Instrument)) (c : Classification),
      c.possibleAssetNamesOrTickers = [] →
      c.previousRelevantTickers = [] →
      c.userWantsToTradeAnAsset = false →
      generateTickersExtractionQueriesResponse catalog c = ([], []) := by
  intro catalog c h1 h2 h3
  simp [generateTickersExtractionQueriesResponse, h1, h2, h3]

/-- Witness for C6: every other flag raised, and a catalog that would
return a row if it were consulted. -/
theorem generateTickersExtraction_shortCircuit_witness :
    generateTickersExtractionQueriesResponse (fun _ => some [instrEx]) cAllFlags
      = ([], []) :=
  generateTickersExtraction_shortCircuit (fun _ => some [instrEx]) cAllFlags
    rfl rfl rfl

/-- Claim C10: `generateStreamFinalAgentResponse` returns an object whose
only fields are `partialObjectStream` and `finishPromise`, the latter
always `undefined`; there is no `textStream` field, so the route's
destructured `textStream` is `undefined` and `textStream.getReader()`
throws instead of producing a reader. -/
theorem generateStreamFinalAgentResponse_shape :
    ∀ sid : Nat,
      getField (generateStreamFinalAgentResponse sid) "textStream".toList
        = JsValue.undef ∧
      getField (generateStreamFinalAgentResponse sid) "finishPromise".toList
        = JsValue.undef ∧
      getField (generateStreamFinalAgentResponse sid) "partialObjectStream".toList
        = JsValue.stream sid ∧
      (generateStreamFinalAgentResponse sid).map Prod.fst =
        ["partialObjectStream".toList, "finishPromise".toList] ∧
      readFinalAgentStream sid =
        .error "TypeError: Cannot read properties of undefined".toList := by
  intro sid
  refine ⟨?_, ?_, ?_, ?_, ?_⟩ <;> rfl

/-- Claim C1 (the code violates it): in a turn where the Google-search
agent is dispatched alongside the SQL agent and only the Google-search
task rejects, the `Promise.all` join rejects, so the merged result does
not exist and the fulfilled siblings' evidence is discarded — the failure
of one task aborts the turn instead of being isolated. -/
theorem gatherEvidence_singleFailure_aborts :
    @gatherEvidenceTasks (List Char) (List Char) (List Char) (List Char)
      cNewsOnly (.ok "portfolioAnalysis".toList) (.ok "sqlCandidates".toList)
      (.error "google search agent rejected".toList) (.ok "additionalData".toList)
      = .error "google search agent rejected".toList ∧
    ∀ merged,
      @gatherEvidenceTasks (List Char) (List Char) (List Char) (List Char)
        cNewsOnly (.ok "portfolioAnalysis".toList) (.ok "sqlCandidates".toList)
        (.error "google search agent rejected".toList) (.ok "additionalData".toList)
      ≠ .ok merged := by
  constructor
  · rfl
  · intro merged h
    rw [show (@gatherEvidenceTasks (List Char) (List Char) (List Char) (List Char)
      cNewsOnly (.ok "portfolioAnalysis".toList) (.ok "sqlCandidates".toList)
      (.error "google search agent rejected".toList) (.ok "additionalData".toList)
      = Except.error "google search agent rejected".toList) from rfl] at h
    exact Except.noConfusion h

/-- Counterexample to claim C3 as stated: a candidate query whose SQL
field is a truthy non-string does not yield an empty row sequence with a
non-fatal status — the status text computation calls `isDangerousQuery`
on the non-string value and throws, so the executor rejects and the turn
aborts. -/
theorem runQuery_nonString_throws :
    generateComparisonDataSqlQueriesResponse (fun _ => .ok []) true [qNonString]
      = .error typeErrorUpper := by
  rfl

/-- Claim C3 as amended: for a null/absent SQL text the executor returns
an empty row sequence with the "No query to execute" status and no
database call; for a string flagged by the safety filter it returns an
empty row sequence with the "Query is not safe to execute" status and no
database call; in both cases it returns normally (the turn continues). -/
theorem runQuery_guarded_spec :
    ∀ (client : List Char → Except (List Char) (List Row)) (w : Bool)
      (q : CandidateQuery),
      (q.sqlQuery = SqlField.nullv →
        runQuery client w q =
          .ok ([], (if w then [⟨q.stepName, false, "No query to execute".toList⟩]
                    else []), [])) ∧
      (∀ s, q.sqlQuery = SqlField.str s → isDangerousQuery s = true →
        runQuery client w q =
          .ok ([], (if w then [⟨q.stepName, false, "Query is not safe to execute".toList⟩]
                    else []), [])) := by
  intro client w q
  constructor
  · intro h
    simp [runQuery, h, SqlField.isFalsy]
  · intro s h hd
    have hs : s.isEmpty = false := by
      cases s with
      | nil => exact absurd hd (by decide)
      | cons a as => rfl
    cases w <;> simp [runQuery, h, SqlField.isFalsy, hs, hd, jsIsDangerousQuery]

/-- Witness for the amended C3 at concrete inputs. -/
theorem runQuery_guarded_spec_witness :
    runQuery (fun _ => .ok []) true
      ⟨SqlField.nullv, "r".toList, "s1".toList⟩ =
      .ok ([], [⟨"s1".toList, false, "No query to execute".toList⟩], []) ∧
    runQuery (fun _ => .ok []) true
      ⟨SqlField.str "DROP TABLE x".toList, "r".toList, "s2".toList⟩ =
      .ok ([], [⟨"s2".toList, false, "Query is not safe to execute".toList⟩], []) := by
  constructor
  · simpa using
      (runQuery_guarded_spec (fun _ => .ok []) true
        ⟨SqlField.nullv, "r".toList, "s1".toList⟩).1 rfl
  · simpa using
      (runQuery_guarded_spec (fun _ => .ok []) true
        ⟨SqlField.str "DROP TABLE x".toList, "r".toList, "s2".toList⟩).2
        "DROP TABLE x".toList rfl (by decide)

/-- Claim C4: a candidate query whose database execution throws is caught
inside the executor and converted into data — its contribution is the
synthetic `{reasoning}` prefix row followed by one synthetic error row
carrying the reasoning and the error text, the executor still fulfills
(no exception escapes), and the surrounding queries' results are intact
in dispatch order. -/
theorem generateComparisonData_dbError_isolated :
    ∀ (client : List Char → Except (List Char) (List Row)) (w : Bool)
      (qs1 qs2 : List CandidateQuery) (q : CandidateQuery) (s e : List Char)
      (r1 : List Row) (st1 : List StepStatus) (c1 : List (List Char))
      (r2 : List Row) (st2 : List StepStatus) (c2 : List (List Char)),
      q.sqlQuery = SqlField.str s →
      s.isEmpty = false →
      isDangerousQuery s = false →
      client (enforceCaseSensitivity s) = .error e →
      generateComparisonDataSqlQueriesResponse client w qs1 = .ok (r1, st1, c1) →
      generateComparisonDataSqlQueriesResponse client w qs2 = .ok (r2, st2, c2) →
      generateComparisonDataSqlQueriesResponse client w (qs1 ++ q :: qs2) =
        .ok (r1 ++ Row.reasoningRow q.reasoning :: Row.errorRow q.reasoning e :: r2,
             st1 ++ ((if w then
                 [⟨q.stepName, false, e⟩,
                  ⟨q.stepName, true, "Data retrieved - 1 results".toList⟩]
               else []) ++ st2),
             c1 ++ s :: c2) := by
  intro client w qs1 qs2 q s e r1 st1 c1 r2 st2 c2 hsql hne hdang hclient h1 h2
  have hq : runQuery client w q =
      .ok ([Row.reasoningRow q.reasoning, Row.errorRow q.reasoning e],
           (if w then
              [⟨q.stepName, false, e⟩,
               ⟨q.stepName, true, "Data retrieved - 1 results".toList⟩]
            else []),
           [s]) := by
    have hsucc : stepFinishSuccess [Row.errorRow q.reasoning e] = true := rfl
    have htext : stepFinishText [Row.errorRow q.reasoning e] =
        "Data retrieved - 1 results".toList := by
      show ("Data retrieved - " ++ toString (1 : Nat) ++ " results").toList =
        "Data retrieved - 1 results".toList
      decide
    rw [runQuery, hsql]
    simp only [SqlField.isFalsy, hne, Bool.false_eq_true, if_false, hdang,
      dbQueryWithLog, hclient, hsucc, htext]
  unfold generateComparisonDataSqlQueriesResponse at h1 h2 ⊢
  cases hp1 : promiseAll (qs1.map (runQuery client w)) with
  | error e1 => rw [hp1] at h1; exact absurd h1 (by simp)
  | ok parts1 =>
    cases hp2 : promiseAll (qs2.map (runQuery client w)) with
    | error e2 => rw [hp2] at h2; exact absurd h2 (by simp)
    | ok parts2 =>
      rw [hp1] at h1
      rw [hp2] at h2
      simp only [Except.ok.injEq, Prod.mk.injEq] at h1 h2
      obtain ⟨hr1, hst1, hc1⟩ := h1
      obtain ⟨hr2, hst2, hc2⟩ := h2
      have hall : promiseAll ((qs1 ++ q :: qs2).map (runQuery client w)) =
          .ok (parts1 ++
            (([Row.reasoningRow q.reasoning, Row.errorRow q.reasoning e],
              (if w then
                 [⟨q.stepName, false, e⟩,
                  ⟨q.stepName, true, "Data retrieved - 1 results".toList⟩]
               else []),
              [s]) :: parts2)) := by
        rw [List.map_append, List.map_cons]
        refine promiseAll_ok_inv _ _ hp1 _ _ ?_
        simp only [promiseAll, hq, hp2, Except.map]
      rw [hall]
      simp only [List.map_append, List.map_cons, List.flatten_append,
        List.flatten_cons, hr1, hst1, hc1, hr2, hst2, hc2, Except.ok.injEq,
        Prod.mk.injEq]
      refine ⟨by simp, by simp, by simp⟩

/-- Witness for C4: a lone query on a connection that always throws. -/
theorem generateComparisonData_dbError_isolated_witness :
    generateComparisonDataSqlQueriesResponse
      (fun _ => .error "connection terminated".toList) true
      [⟨SqlField.str "SELECT a FROM b".toList, "why".toList, "Stock Data".toList⟩] =
      .ok ([Row.reasoningRow "why".toList,
            Row.errorRow "why".toList "connection terminated".toList],
           [⟨"Stock Data".toList, false, "connection terminated".toList⟩,
            ⟨"Stock Data".toList, true, "Data retrieved - 1 results".toList⟩],
           ["SELECT a FROM b".toList]) := by
  have h := generateComparisonData_dbError_isolated
    (fun _ => .error "connection terminated".toList) true [] []
    ⟨SqlField.str "SELECT a FROM b".toList, "why".toList, "Stock Data".toList⟩
    "SELECT a FROM b".toList "connection terminated".toList
    [] [] [] [] [] [] rfl rfl (by decide) rfl rfl rfl
  simpa using h

/-- Claim C9: `getUserPortfolio` returns `[]` for an empty username and
for any enrichment-query error, returns the one-element private/empty
message array when the brokerage response has no positions field, and on
the success path returns only entries whose weight is strictly above the
minimum-weight threshold, sorted descending by weight, capped at
`maxPositions` entries (source defaults: threshold 0.3, cap 50). -/
theorem getUserPortfolio_spec :
    ∀ (username : List Char) (resp : PortfolioSummary) (enrich : EnrichResults)
      (minW : ℚ) (maxP : Nat),
      (username = [] → getUserPortfolio username resp enrich minW maxP = []) ∧
      (username ≠ [] → resp.positions = none →
        getUserPortfolio username resp enrich minW maxP = [Sum.inl privateMsg]) ∧
      (username ≠ [] → ∀ ps, resp.positions = some ps →
        (isErr enrich.fundamentals || isErr enrich.instrumentsQ ||
         isErr enrich.popularInvestors || isErr enrich.etfs) = true →
        getUserPortfolio username resp enrich minW maxP = []) ∧
      (username ≠ [] → ∀ ps, resp.positions = some ps →
        (isErr enrich.fundamentals || isErr enrich.instrumentsQ ||
         isErr enrich.popularInvestors || isErr enrich.etfs) = false →
        (∀ x ∈ getUserPortfolio username resp enrich minW maxP,
          ∃ entry wq, x = Sum.inr (entry, some wq) ∧ minW < wq) ∧
        List.Pairwise (fun x y => sumWeight y ≤ sumWeight x)
          (getUserPortfolio username resp enrich minW maxP) ∧
        (getUserPortfolio username resp enrich minW maxP).length ≤ maxP) := by
  intro username resp enrich minW maxP
  have hne : ∀ (h : username ≠ []), username.isEmpty = false := by
    intro h
    cases username with
    | nil => exact absurd rfl h
    | cons a as => rfl
  refine ⟨?_, ?_, ?_, ?_⟩
  · rintro rfl
    simp [getUserPortfolio]
  · intro h hpos
    simp [getUserPortfolio, hne h, hpos]
  · intro h ps hpos herr
    simp [getUserPortfolio, hne h, hpos, herr]
  · intro h ps hpos herr
    have hres : getUserPortfolio username resp enrich minW maxP =
        (portfolioFinal ps resp.socialTrades minW maxP).map Sum.inr := by
      simp [getUserPortfolio, hne h, hpos, herr]
    refine ⟨?_, ?_, ?_⟩
    · intro x hx
      rw [hres] at hx
      obtain ⟨p, hp, rfl⟩ := List.mem_map.mp hx
      have hp' : p ∈ portfolioFiltered ps resp.socialTrades minW := by
        have hmem := (List.take_sublist maxP
          ((portfolioFiltered ps resp.socialTrades minW).mergeSort
            weightDescLe)).subset hp
        exact (List.mergeSort_perm _ weightDescLe).subset hmem
      have hpred := (List.mem_filter.mp hp').2
      cases hw : p.2 with
      | none => rw [hw] at hpred; simp at hpred
      | some wq =>
        rw [hw] at hpred
        refine ⟨p.1, wq, ?_, by simpa using hpred⟩
        rw [show p = (p.1, p.2) from rfl, hw]
    · rw [hres]
      rw [List.pairwise_map]
      simp only [portfolioFinal]
      have hsorted := @List.sorted_mergeSort _ weightDescLe
        (fun a b c hab hbc => by
          simp only [weightDescLe, decide_eq_true_eq] at hab hbc ⊢
          exact le_trans hbc hab)
        (fun a b => by
          simp only [weightDescLe, Bool.or_eq_true, decide_eq_true_eq]
          exact le_total (b.2.getD 0) (a.2.getD 0))
        (portfolioFiltered ps resp.socialTrades minW)
      have htake := List.Pairwise.sublist (List.take_sublist maxP _) hsorted
      refine List.Pairwise.imp ?_ htake
      intro a b hab
      simpa [sumWeight, weightDescLe] using hab
    · rw [hres]
      simp only [List.length_map, portfolioFinal]
      have := List.length_take maxP
        ((portfolioFiltered ps resp.socialTrades minW).mergeSort weightDescLe)
      omega

/-- Witness for C9 at concrete inputs (threshold 0.3, cap 50). -/
theorem getUserPortfolio_spec_witness :
    getUserPortfolio [] resp0 enrich0 (3/10) 50 = [] ∧
    getUserPortfolio "alice".toList respNone enrich0 (3/10) 50 =
      [Sum.inl privateMsg] ∧
    getUserPortfolio "alice".toList resp0 enrichBad (3/10) 50 = [] ∧
    ((∀ x ∈ getUserPortfolio "alice".toList resp0 enrich0 (3/10) 50,
        ∃ entry wq, x = Sum.inr (entry, some wq) ∧ (3/10 : ℚ) < wq) ∧
      List.Pairwise (fun x y => sumWeight y ≤ sumWeight x)
        (getUserPortfolio "alice".toList resp0 enrich0 (3/10) 50) ∧
      (getUserPortfolio "alice".toList resp0 enrich0 (3/10) 50).length ≤ 50) := by
  refine ⟨?_, ?_, ?_, ?_⟩
  · exact (getUserPortfolio_spec [] resp0 enrich0 (3/10) 50).1 rfl
  · exact (getUserPortfolio_spec "alice".toList respNone enrich0 (3/10) 50).2.1
      (by decide) rfl
  · exact (getUserPortfolio_spec "alice".toList resp0 enrichBad (3/10) 50).2.2.1
      (by decide) [⟨1, 5⟩, ⟨2, 1/10⟩] rfl (by decide)
  · exact (getUserPortfolio_spec "alice".toList resp0 enrich0 (3/10) 50).2.2.2
      (by decide) [⟨1, 5⟩, ⟨2, 1/10⟩] rfl (by decide)

/-- Counterexample to claim C7 as stated: in `SELECT '','select this'`
(a valid SQL select list: an empty literal, then a literal containing a
keyword-like and an identifier-like token) the quoter's output keeps the
double quote inserted around `this` inside the second literal, because
the empty literal shifts the literal-matching stage's quote pairing.  The
input contains no double quote, the output contains one, and it sits
between the literal's quotes. -/
theorem enforceCaseSensitivity_literal_counterexample :
    enforceCaseSensitivity cexInput = cexOutput ∧
    dquote ∉ cexInput ∧
    cexOutput = "SELECT ".toList ++ squote :: squote :: ',' ::
      squote :: "select ".toList ++ dquote :: "this".toList ++ [squote] := by
  refine ⟨?_, by decide, rfl⟩
  simp [cexInput, cexOutput, enforceCaseSensitivity, quoteBareIdentifiers,
    quoteRun, isKeywordOrFunctionName, sqlKeywords, functionNames, isWordChar,
    isIdentStart, replacePairAll, unquoteWildcards, unquoteLiterals, squote,
    dquote, pctChar, nlChar]

/-- Claim C7 as amended: when the single-quoted literal is the only
quoted region — the surrounding text contains no quotes and no percent
signs and meets the literal at non-word characters, and the literal is
nonempty and free of quotes and percent signs — the quoter leaves the
literal exactly as it was: the output is the quoted prefix, the untouched
literal, and the quoted suffix, with no inserted double quote inside the
literal. -/
theorem enforceCaseSensitivity_literal_preserved
    (pre lit post : List Char)
    (hpre : ∀ c ∈ pre, c ≠ squote ∧ c ≠ dquote ∧ c ≠ pctChar)
    (hpreLast : ∀ c, pre.getLast? = some c → isWordChar c = false)
    (hlit : lit ≠ [])
    (hlitc : ∀ c ∈ lit, c ≠ squote ∧ c ≠ dquote ∧ c ≠ pctChar)
    (hpost : ∀ c ∈ post, c ≠ squote ∧ c ≠ dquote ∧ c ≠ pctChar)
    (hpostHead : ∀ c, post.head? = some c → isWordChar c = false) :
    enforceCaseSensitivity (pre ++ squote :: lit ++ squote :: post) =
      quoteBareIdentifiers pre ++ squote :: lit ++
        squote :: quoteBareIdentifiers post := by
  have hsd : squote ≠ dquote := by decide
  have hsp : squote ≠ pctChar := by decide
  have hdp : dquote ≠ pctChar := by decide
  have hsqw : isWordChar squote = false := by decide
  have hPsq : squote ∉ quoteBareIdentifiers pre := by
    intro hm
    rcases mem_quoteBareIdentifiers hm with h | h
    · exact (hpre squote h).1 rfl
    · exact hsd h
  have hLsq : squote ∉ quoteBareIdentifiers lit := by
    intro hm
    rcases mem_quoteBareIdentifiers hm with h | h
    · exact (hlitc squote h).1 rfl
    · exact hsd h
  have hQsq : squote ∉ quoteBareIdentifiers post := by
    intro hm
    rcases mem_quoteBareIdentifiers hm with h | h
    · exact (hpost squote h).1 rfl
    · exact hsd h
  have hPlast : ∀ x, (quoteBareIdentifiers pre).getLast? = some x →
      x ≠ dquote := by
    intro x hx
    cases hpl : pre.getLast? with
    | none =>
      rw [List.getLast?_eq_none_iff] at hpl
      subst hpl
      rw [quoteBareIdentifiers_nil] at hx
      simp at hx
    | some y =>
      have hy := quoteBareIdentifiers_getLast_nonword hpl (hpreLast y hpl)
      rw [hy, Option.some.injEq] at hx
      subst hx
      exact (hpre y (mem_of_getLast? hpl)).2.1
  have hQhead : ∀ x, (quoteBareIdentifiers post).head? = some x →
      x ≠ dquote := by
    intro x hx
    cases post with
    | nil =>
      rw [quoteBareIdentifiers_nil] at hx
      simp at hx
    | cons p0 ps =>
      have hp0 := hpostHead p0 (by simp)
      rw [quoteBareIdentifiers_cons_nonword hp0] at hx
      rw [List.head?_cons, Option.some.injEq] at hx
      subst hx
      exact (hpost p0 (by simp)).2.1
  have hLdd : hasPair dquote dquote (quoteBareIdentifiers lit) = false := by
    refine hasPair_dq_quoteBareIdentifiers ?_
    intro hm
    exact (hlitc dquote hm).2.1 rfl
  obtain ⟨L', hL'sq, hL'sub, hL'filter, hL'dd, hL'eq⟩ :=
    repairStages_shape hPsq hLsq hQsq hPlast hQhead hLdd
  have hfilterlit : L'.filter (fun x => decide (x ≠ dquote)) = lit := by
    rw [hL'filter, quoteBareIdentifiers_filter]
    rw [List.filter_eq_self]
    intro x hx
    simpa using (hlitc x hx).2.1
  have hL'ne : L' ≠ [] := by
    intro hh
    rw [hh] at hfilterlit
    exact hlit hfilterlit.symm
  have hstep1 : quoteBareIdentifiers (pre ++ squote :: lit ++ squote :: post) =
      quoteBareIdentifiers pre ++ squote :: quoteBareIdentifiers lit ++
        squote :: quoteBareIdentifiers post := by
    rw [show (pre ++ squote :: lit ++ squote :: post) =
      pre ++ squote :: (lit ++ squote :: post) from by simp]
    rw [quoteBareIdentifiers_append_nonword squote hsqw pre _]
    rw [quoteBareIdentifiers_append_nonword squote hsqw lit post]
    simp
  have hpct : pctChar ∉ (quoteBareIdentifiers pre ++ squote :: L' ++
      squote :: quoteBareIdentifiers post) := by
    intro hm
    have h5 : pctChar ∈ quoteBareIdentifiers pre ∨ pctChar = squote ∨
        pctChar ∈ L' ∨ pctChar = squote ∨
        pctChar ∈ quoteBareIdentifiers post := by
      simpa using hm
    rcases h5 with h | h | h | h | h
    · rcases mem_quoteBareIdentifiers h with h | h
      · exact (hpre pctChar h).2.2 rfl
      · exact hdp h.symm
    · exact hsp h.symm
    · rcases mem_quoteBareIdentifiers (hL'sub pctChar h) with h | h
      · exact (hlitc pctChar h).2.2 rfl
      · exact hdp h.symm
    · exact hsp h.symm
    · rcases mem_quoteBareIdentifiers h with h | h
      · exact (hpost pctChar h).2.2 rfl
      · exact hdp h.symm
  have hrp4 : replacePairAll dquote dquote [dquote]
      (quoteBareIdentifiers pre ++ squote :: L' ++
        squote :: quoteBareIdentifiers post) =
      quoteBareIdentifiers pre ++ squote :: L' ++
        squote :: quoteBareIdentifiers post := by
    refine replacePairAll_eq_self _ _ _ _ ?_
    refine hasPair_dq_dq_region ?_ hL'dd ?_
    · refine hasPair_dq_quoteBareIdentifiers ?_
      intro hm
      exact (hpre dquote hm).2.1 rfl
    · refine hasPair_dq_quoteBareIdentifiers ?_
      intro hm
      exact (hpost dquote hm).2.1 rfl
  rw [enforceCaseSensitivity, hstep1, hL'eq, hrp4, unquoteWildcards_eq_self hpct]
  rw [List.append_assoc]
  rw [unquoteLiterals_append_left hPsq]
  rw [unquoteLiterals_literal hL'sq hL'ne hQsq]
  rw [show L'.filter (fun x => x ≠ dquote) = lit from hfilterlit]
  simp

/-- Witness for the amended C7 at the claim's own example:
`WHERE name = 'select this'`. -/
theorem enforceCaseSensitivity_literal_preserved_witness :
    enforceCaseSensitivity ("WHERE name = ".toList ++ squote ::
        "select this".toList ++ squote :: []) =
      quoteBareIdentifiers "WHERE name = ".toList ++ squote ::
        "select this".toList ++ squote :: quoteBareIdentifiers [] := by
  refine enforceCaseSensitivity_literal_preserved
    "WHERE name = ".toList "select this".toList [] ?_ ?_ ?_ ?_ ?_ ?_
  · decide
  · decide
  · decide
  · decide
  · decide
  · decide

/-- Claim C8: `enforceCaseSensitivity` is idempotent on well-formed SQL
text — a sequence of keyword/function tokens and double-quoted
identifiers separated by non-word separator characters, with no string
literals.  On such input the quoter is in fact the identity, so a second
application changes nothing. -/
theorem enforceCaseSensitivity_idempotent (ts : List SqlToken)
    (hok : ∀ t ∈ ts, tokenOk t = true) (hadj : okAdj ts = true) :
    enforceCaseSensitivity (enforceCaseSensitivity (tokensChars ts)) =
      enforceCaseSensitivity (tokensChars ts) := by
  rw [enforceCaseSensitivity_wf_fixed ts hok hadj,
    enforceCaseSensitivity_wf_fixed ts hok hadj]

/-- Witness for C8 at the well-formed query
`SELECT "name", "tbl" FROM "t123"`. -/
theorem enforceCaseSensitivity_idempotent_witness :
    enforceCaseSensitivity (enforceCaseSensitivity (tokensChars wfEx)) =
      enforceCaseSensitivity (tokensChars wfEx) :=
  enforceCaseSensitivity_idempotent wfEx (by decide) (by decide)

end FinanceChat
